import Mathlib

/-! Laghos: the DOF mapping builder of `RajaFiniteElementSpace` and the
quadrature staleness flag of `LagrangianHydroOperator`.

Shallow embedding of `raja/rfespace.cpp` and of the inline members of
`laghos_solver.hpp`.

* A C `int` array is a `List Int`; every read and write goes through `rd` / `wr`,
  which return `none` when the index is negative or not below the length
  (the C code has undefined behaviour there).
* C `int` values are `Int`.  Every value the builder stores is an array length
  or a count bounded by `elements * localDofs`, which the constructor itself
  computes as an `int`, so no wrap-around is modelled.
* The sizes `elements`, `localDofs`, `globalDofs`, `mHeight` are `Nat`
  (array extents); a loop `for (i = 0; i < n; ++i)` is `forLoop` over `n`.
-/

namespace Laghos

/-! ## Arrays and loops -/

/-- Checked read `a[i]` of a C array at an `int` index. -/
def rd (a : List Int) (i : Int) : Option Int :=
  if 0 ≤ i then a[i.toNat]? else none

/-- Checked write `a[i] = v` of a C array at an `int` index. -/
def wr (a : List Int) (i : Int) (v : Int) : Option (List Int) :=
  if 0 ≤ i ∧ i.toNat < a.length then some (a.set i.toNat v) else none

/-- The loop `for (int i = 0; i < n; ++i) body` over a state `σ`: the first `n`
iterations of `forLoop body (n+1)` are those of `forLoop body n`, followed by
iteration `n`. -/
def forLoop {σ : Type} (body : Nat → σ → Option σ) : Nat → σ → Option σ
  | 0, s => some s
  | n + 1, s => (forLoop body n s).bind (body n)

/-- Modelled from the spec: the `forall(i, N, body)` construct, which is declared
in `raja.hpp` and not in `rfespace.cpp`.  The spec fixes the processing order as
"element order, node order within element" and requires each pass to complete
before the next begins, so it is the sequential loop over `0 .. N-1`. -/
def forallLoop {σ : Type} (N : Nat) (body : Nat → σ → Option σ) (s : σ) : Option σ :=
  forLoop body N s

/-- The loop `for (int i = n; i > 0; --i) body`. -/
def forDown {σ : Type} (body : Nat → σ → Option σ) : Nat → σ → Option σ
  | 0, s => some s
  | n + 1, s => (body (n + 1) s).bind (forDown body n)

/-- A freshly allocated array of `n` ints; `init` is its unspecified initial
content. -/
def allocArray (n : Nat) (init : Nat → Int) : List Int :=
  (List.range n).map init

/-- The call `memcpy(dst, src, n*sizeof(int))`: the first `n` ints of `src`
replace the first `n` ints of `dst`. -/
def memcpy (dst src : List Int) (n : Nat) : Option (List Int) :=
  if n ≤ dst.length ∧ n ≤ src.length then some (src.take n ++ dst.drop n) else none

/-! ## The five builder passes (`rfespace.cpp`, lines 16-67) and the constructor -/

/-- `offsetsFlush`: `forall(i,N,offsets[i] = 0;)`. -/
def offsetsFlush (N : Nat) (offsets : List Int) : Option (List Int) :=
  forallLoop N (fun i offs => wr offs (i : Int) 0) offsets

/-- `offsetFill`: for every element `e` and node `d`, read
`gid = elementMap[localDofs*e + d]` and do `++offsets[gid + 1]`. -/
def offsetFill (elements localDofs : Nat) (elementMap : List Int)
    (offsets : List Int) : Option (List Int) :=
  forallLoop elements (fun e offs =>
    forLoop (fun d offs =>
      (rd elementMap ((localDofs : Int) * (e : Int) + (d : Int))).bind fun gid =>
      (rd offs (gid + 1)).bind fun c =>
      wr offs (gid + 1) (c + 1)) localDofs offs) offsets

/-- `offsetsAggregate(N, offsets)` called on the pointer `offsets + base`:
`for (i = 0; i < N; i++) p[i] += p[i-1]` with `p = offsets + base`. -/
def offsetsAggregate (N : Nat) (base : Nat) (offsets : List Int) : Option (List Int) :=
  forallLoop 1 (fun _ offs =>
    forLoop (fun i offs =>
      (rd offs ((base : Int) + (i : Int))).bind fun a =>
      (rd offs ((base : Int) + ((i : Int) - 1))).bind fun b =>
      wr offs ((base : Int) + (i : Int)) (a + b)) N offs) offsets

/-- The three arrays the scatter pass updates. -/
structure MapState where
  offsets : List Int
  indices : List Int
  map : List Int
deriving DecidableEq, Repr

/-- `fillIndicesAndMap`: for every element `e` and node `d`,
`did = dof_map_is_identity ? d : dof_map[d]`, `gid = elementMap[localDofs*e + did]`,
`lid = localDofs*e + d`, `indices[offsets[gid]++] = lid`, `map[lid] = gid`. -/
def fillIndicesAndMap (elements localDofs : Nat) (dof_map_is_identity : Bool)
    (dof_map elementMap : List Int) (st : MapState) : Option MapState :=
  forallLoop elements (fun e st =>
    forLoop (fun d st =>
      (if dof_map_is_identity then some (d : Int) else rd dof_map (d : Int)).bind fun did =>
      (rd elementMap ((localDofs : Int) * (e : Int) + did)).bind fun gid =>
      let lid : Int := (localDofs : Int) * (e : Int) + (d : Int)
      (rd st.offsets gid).bind fun pos =>
      (wr st.offsets gid (pos + 1)).bind fun offs =>
      (wr st.indices pos lid).bind fun ind =>
      (wr st.map lid gid).bind fun mp =>
      some ⟨offs, ind, mp⟩) localDofs st) st

/-- `offsetsShift`: `for (i = globalDofs; i > 0; --i) offsets[i] = offsets[i-1];`
then `offsets[0] = 0`. -/
def offsetsShift (globalDofs : Nat) (offsets : List Int) : Option (List Int) :=
  forallLoop 1 (fun _ offs =>
    (forDown (fun i offs =>
      (rd offs ((i : Int) - 1)).bind fun v => wr offs (i : Int) v) globalDofs offs).bind fun offs =>
    wr offs 0 0) offsets

/-- The mapping part of the constructor `RajaFiniteElementSpace` (lines 79-81 and
92-122): allocate `offsets(globalDofs+1)`, `indices(localDofs, elements)`,
`map(localDofs, elements)`, then run the five passes.  `uninit k` is the
unspecified initial content of the `k`-th allocation. -/
def buildMapping (globalDofs localDofs elements : Nat) (dof_map elementMap : List Int)
    (uninit : Nat → Nat → Int) : Option MapState :=
  let offsets := allocArray (globalDofs + 1) (uninit 0)
  let indices := allocArray (localDofs * elements) (uninit 1)
  let map := allocArray (localDofs * elements) (uninit 2)
  let dof_map_is_identity : Bool := dof_map.length == 0
  (offsetsFlush (globalDofs + 1) offsets).bind fun offsets =>
  (offsetFill elements localDofs elementMap offsets).bind fun offsets =>
  (offsetsAggregate globalDofs 1 offsets).bind fun offsets =>
  (fillIndicesAndMap elements localDofs dof_map_is_identity dof_map elementMap
    ⟨offsets, indices, map⟩).bind fun st =>
  (offsetsShift globalDofs st.offsets).bind fun offsets =>
  some { st with offsets := offsets }

/-! ## The direct-copy list (`rfespace.cpp`, lines 127-148) -/

/-- First scan: `trueCount += ((I[i + 1] - I[i]) == 1)` for `i < mHeight`. -/
def countTrueDofs (mHeight : Nat) (I : List Int) : Option Int :=
  forLoop (fun i trueCount =>
    (rd I ((i : Int) + 1)).bind fun a =>
    (rd I (i : Int)).bind fun b =>
    some (trueCount + (if a - b = 1 then 1 else 0))) mHeight 0

/-- Second scan: for every row `i` with `I[i+1] - I[i] == 1`,
`h_reorderIndices[trueIdx++] = J[I[i]]; h_reorderIndices[trueIdx++] = i;`.
The state is the buffer together with the cursor `trueIdx`. -/
def fillReorderIndices (mHeight : Nat) (I J : List Int) (h_reorderIndices : List Int) :
    Option (List Int × Int) :=
  forLoop (fun i s =>
    (rd I ((i : Int) + 1)).bind fun a =>
    (rd I (i : Int)).bind fun b =>
    if a - b = 1 then
      (rd I (i : Int)).bind fun p =>
      (rd J p).bind fun col =>
      (wr s.1 s.2 col).bind fun buf =>
      (wr buf (s.2 + 1) (i : Int)).bind fun buf =>
      some (buf, s.2 + 1 + 1)
    else some s) mHeight (h_reorderIndices, 0)

/-- The direct-copy part of the constructor: count, allocate
`h_reorderIndices(2*trueCount)`, fill, allocate `reorderIndices` of the same size
and copy the buffer into it. -/
def buildReorderIndices (mHeight : Nat) (I J : List Int) (uninit : Nat → Nat → Int) :
    Option (List Int) :=
  (countTrueDofs mHeight I).bind fun trueCount =>
  let h_reorderIndices := allocArray (2 * trueCount).toNat (uninit 3)
  (fillReorderIndices mHeight I J h_reorderIndices).bind fun s =>
  let reorderIndices := allocArray (2 * trueCount).toNat (uninit 4)
  memcpy reorderIndices s.1 (2 * trueCount).toNat

/-! ## Scatter and gather (`rfespace.cpp`, lines 170-200) -/

/-- Modelled from the spec: the kernel `rLocalToGlobal` that
`RajaFiniteElementSpace::LocalToGlobal` calls (its body is not in `rfespace.cpp`),
for one vector component: "for each global DOF, sum the values of all local
entries in its bucket and write the single result". -/
def rLocalToGlobal (globalDofs : Nat) (offsets indices localVec globalVec : List Int) :
    Option (List Int) :=
  forallLoop globalDofs (fun g glob =>
    (rd offsets (g : Int)).bind fun a =>
    (rd offsets ((g : Int) + 1)).bind fun b =>
    (forLoop (fun j (acc : Int) =>
      (rd indices (a + (j : Int))).bind fun lid =>
      (rd localVec lid).bind fun x => some (acc + x)) (b - a).toNat 0).bind fun dofValue =>
    wr glob (g : Int) dofValue) globalVec

/-- `RajaFiniteElementSpace::LocalToGlobal` (lines 187-200), one component. -/
def LocalToGlobal (globalDofs : Nat) (st : MapState) (localVec globalVec : List Int) :
    Option (List Int) :=
  rLocalToGlobal globalDofs st.offsets st.indices localVec globalVec

/-! ## The quadrature staleness flag (`laghos_solver.hpp`) -/

/-- The data members of `LagrangianHydroOperator` (lines 59-88).  The MFEM and
assembly types they have are parameters. -/
structure LagrangianHydroOperator (ParFiniteElementSpace ArrayInt Double ParBilinearForm
    DenseTensor IntegrationRule QuadratureData MixedBilinearForm ForcePAOperator : Type) where
  H1FESpace : ParFiniteElementSpace
  L2FESpace : ParFiniteElementSpace
  H1compFESpace : ParFiniteElementSpace
  ess_tdofs : ArrayInt
  dim : Int
  zones_cnt : Int
  l2dofs_cnt : Int
  h1dofs_cnt : Int
  source_type : Int
  cfl : Double
  gamma : Double
  use_viscosity : Bool
  p_assembly : Bool
  Mv : ParBilinearForm
  Me_inv : DenseTensor
  integ_rule : IntegrationRule
  quad_data : QuadratureData
  quad_data_is_current : Bool
  Force : MixedBilinearForm
  ForcePA : ForcePAOperator

/-- `void ResetQuadratureData() const { quad_data_is_current = false; }` -/
def LagrangianHydroOperator.ResetQuadratureData {F A D B T R Q M P : Type}
    (op : LagrangianHydroOperator F A D B T R Q M P) : LagrangianHydroOperator F A D B T R Q M P :=
  { op with quad_data_is_current := false }

/-! ## Specification-level definitions -/

/-- Valid builder input: `elementMap` has `elements*localDofs` entries, each in
`[0, globalDofs)`, and `dof_map` is empty or a permutation of `0..localDofs-1`. -/
structure ValidInput (globalDofs localDofs elements : Nat)
    (dof_map elementMap : List Int) : Prop where
  length_eq : elementMap.length = elements * localDofs
  in_range : ∀ x ∈ elementMap, 0 ≤ x ∧ x < (globalDofs : Int)
  perm : dof_map = [] ∨ dof_map.Perm ((List.range localDofs).map Int.ofNat)

/-- A CSR structure with `mHeight` rows: `I` has `mHeight+1` entries, starts at 0,
is non-decreasing, and `J` has `I[mHeight]` entries. -/
structure ValidCSR (mHeight : Nat) (I J : List Int) : Prop where
  length_I : I.length = mHeight + 1
  first : I[0]? = some 0
  mono : I.Pairwise (fun a b => a ≤ b)
  length_J : I[mHeight]? = some (J.length : Int)

instance instDecidableValidInput (globalDofs localDofs elements : Nat)
    (dof_map elementMap : List Int) :
    Decidable (ValidInput globalDofs localDofs elements dof_map elementMap) :=
  decidable_of_iff
    (elementMap.length = elements * localDofs ∧
      (∀ x ∈ elementMap, 0 ≤ x ∧ x < (globalDofs : Int)) ∧
      (dof_map = [] ∨ dof_map.Perm ((List.range localDofs).map Int.ofNat)))
    ⟨fun h => ⟨h.1, h.2.1, h.2.2⟩, fun h => ⟨h.length_eq, h.in_range, h.perm⟩⟩

instance instDecidableValidCSR (mHeight : Nat) (I J : List Int) :
    Decidable (ValidCSR mHeight I J) :=
  decidable_of_iff
    (I.length = mHeight + 1 ∧ I[0]? = some 0 ∧ I.Pairwise (fun a b => a ≤ b) ∧
      I[mHeight]? = some (J.length : Int))
    ⟨fun h => ⟨h.1, h.2.1, h.2.2.1, h.2.2.2⟩,
      fun h => ⟨h.length_I, h.first, h.mono, h.length_J⟩⟩

/-- Number of positions `j < m` with `f j = g`. -/
def occ (f : Nat → Int) (m : Nat) (g : Int) : Nat :=
  (List.range m).countP (fun j => decide (f j = g))

/-- Number of positions `j < m` with `f j < k`. -/
def below (f : Nat → Int) (m : Nat) (k : Int) : Nat :=
  (List.range m).countP (fun j => decide (f j < k))

/-- The incidence table as a function of the position. -/
def emF (elementMap : List Int) (j : Nat) : Int := elementMap.getD j 0

/-- The reordered node `did` of node `d`: `d` itself when `dof_map` is empty. -/
def didF (dof_map : List Int) (d : Nat) : Int :=
  if dof_map.length = 0 then (d : Int) else dof_map.getD d 0

/-- The global DOF id the scatter pass computes for local entry `lid`. -/
def gidF (localDofs : Nat) (dof_map elementMap : List Int) (lid : Nat) : Int :=
  elementMap.getD (localDofs * (lid / localDofs) + (didF dof_map (lid % localDofs)).toNat) 0

/-- First position of bucket `k`: the number of incidence entries smaller than `k`. -/
def bucketStart (L E : Nat) (em : List Int) (k : Nat) : Nat :=
  below (emF em) (L * E) (k : Int)

/-- The bucket of global DOF `g`: the slice `indices[offsets[g] .. offsets[g+1])`. -/
def bucket (st : MapState) (g : Nat) : List Int :=
  (st.indices.drop (st.offsets.getD g 0).toNat).take
    ((st.offsets.getD (g + 1) 0).toNat - (st.offsets.getD g 0).toNat)

/-- The local entries `lid < n` with `f lid = g`, in increasing order. -/
def entriesOf (f : Nat → Int) (n : Nat) (g : Int) : List Nat :=
  (List.range n).filter (fun lid => decide (f lid = g))

/-- The rows `i < n` with exactly one nonzero, in increasing order. -/
def singleRows (I : List Int) (n : Nat) : List Nat :=
  (List.range n).filter (fun i => decide (I.getD (i + 1) 0 - I.getD i 0 = 1))

/-- State of the scatter pass after the first `m` local entries: `start k` is the
first position of bucket `k`. -/
def ScatterInv (G N : Nat) (f : Nat → Int) (start : Nat → Nat) (m : Nat)
    (st : MapState) : Prop :=
  st.offsets.length = G + 1 ∧ st.indices.length = N ∧ st.map.length = N ∧
  (∀ k, k ≤ G → st.offsets[k]? = some ((start k + occ f m k : Nat) : Int)) ∧
  (∀ k r, k < G → r < occ f m k → ∃ lid, lid < m ∧ f lid = (k : Int) ∧ occ f lid k = r ∧
    st.indices[start k + r]? = some (lid : Int)) ∧
  (∀ lid, lid < m → st.map[lid]? = some (f lid))

/-- What the finished mapping looks like, entry by entry. -/
structure MappingSpec (G L E : Nat) (dm em : List Int) (st : MapState) : Prop where
  offsets_length : st.offsets.length = G + 1
  indices_length : st.indices.length = L * E
  map_length : st.map.length = L * E
  offsets_eq : ∀ k, k ≤ G → st.offsets[k]? = some ((bucketStart L E em k : Nat) : Int)
  indices_eq : ∀ k r, k < G → r < occ (gidF L dm em) (L * E) k →
    ∃ lid, lid < L * E ∧ gidF L dm em lid = (k : Int) ∧ occ (gidF L dm em) lid k = r ∧
      st.indices[bucketStart L E em k + r]? = some (lid : Int)
  map_eq : ∀ lid, lid < L * E → st.map[lid]? = some (gidF L dm em lid)

/-- State of the second scan after `i` rows; `T` is the number of single rows. -/
def FillInv (I J : List Int) (T : Nat) (i : Nat) (s : List Int × Int) : Prop :=
  s.1.length = 2 * T ∧ s.2 = ((2 * (singleRows I i).length : Nat) : Int) ∧
  ∀ k row, (singleRows I i)[k]? = some row →
    s.1[2 * k]? = some (J.getD (I.getD row 0).toNat 0) ∧ s.1[2 * k + 1]? = some (row : Int)

/-- The body of the two loops of `fillIndicesAndMap` for element `e` and node `d`
(the same statements, named so that a run can be stopped between iterations). -/
def scatterBody (localDofs : Nat) (dof_map_is_identity : Bool)
    (dof_map elementMap : List Int) (e d : Nat) (st : MapState) : Option MapState :=
  (if dof_map_is_identity then some (d : Int) else rd dof_map (d : Int)).bind fun did =>
  (rd elementMap ((localDofs : Int) * (e : Int) + did)).bind fun gid =>
  let lid : Int := (localDofs : Int) * (e : Int) + (d : Int)
  (rd st.offsets gid).bind fun pos =>
  (wr st.offsets gid (pos + 1)).bind fun offs =>
  (wr st.indices pos lid).bind fun ind =>
  (wr st.map lid gid).bind fun mp =>
  some ⟨offs, ind, mp⟩

/-- The state of `fillIndicesAndMap` when the iteration for element `e` and node
`d` begins: elements `0..e-1` are done, and nodes `0..d-1` of element `e`. -/
def scatterStateAt (localDofs : Nat) (dof_map_is_identity : Bool)
    (dof_map elementMap : List Int) (st0 : MapState) (e d : Nat) : Option MapState :=
  (fillIndicesAndMap e localDofs dof_map_is_identity dof_map elementMap st0).bind
    (forLoop (scatterBody localDofs dof_map_is_identity dof_map elementMap e) d)

/-- The global DOF `gid` and the position `offsets[gid]` at which the iteration
for element `e` and node `d` writes into `indices`. -/
def scatterWritePos (localDofs : Nat) (dof_map_is_identity : Bool)
    (dof_map elementMap : List Int) (st0 : MapState) (e d : Nat) : Option (Int × Int) :=
  (scatterStateAt localDofs dof_map_is_identity dof_map elementMap st0 e d).bind fun st =>
  (if dof_map_is_identity then some (d : Int) else rd dof_map (d : Int)).bind fun did =>
  (rd elementMap ((localDofs : Int) * (e : Int) + did)).bind fun gid =>
  (rd st.offsets gid).bind fun pos => some (gid, pos)

/-- The position of the `w`-th write (`w = 0` for `J[I[i]]`, `w = 1` for `i`) that
the second scan makes at a row `i` with exactly one nonzero: the value the cursor
`trueIdx` has when row `i` begins, plus `w`. -/
def reorderWritePos (I J : List Int) (h_reorderIndices : List Int) (i w : Nat) : Option Int :=
  (fillReorderIndices i I J h_reorderIndices).bind fun s => some (s.2 + (w : Int))

/-! ## Lemmas and theorems -/

theorem forLoop_inv {σ : Type} (body : Nat → σ → Option σ) (Inv : Nat → σ → Prop)
    (n : Nat) (s0 : σ) (h0 : Inv 0 s0)
    (hstep : ∀ i s, i < n → Inv i s → ∃ s', body i s = some s' ∧ Inv (i + 1) s') :
    ∃ s', forLoop body n s0 = some s' ∧ Inv n s' := by
  induction n with
  | zero => exact ⟨s0, rfl, h0⟩
  | succ n ih =>
    obtain ⟨s1, h1, hi1⟩ := ih (fun i s hi => hstep i s (Nat.lt_succ_of_lt hi))
    obtain ⟨s2, h2, hi2⟩ := hstep n s1 (Nat.lt_succ_self n) hi1
    exact ⟨s2, by simp [forLoop, h1, h2], hi2⟩

theorem forDown_inv {σ : Type} (body : Nat → σ → Option σ) (Inv : Nat → σ → Prop)
    (n : Nat) (s0 : σ) (h0 : Inv n s0)
    (hstep : ∀ i s, i < n → Inv (i + 1) s → ∃ s', body (i + 1) s = some s' ∧ Inv i s') :
    ∃ s', forDown body n s0 = some s' ∧ Inv 0 s' := by
  induction n generalizing s0 with
  | zero => exact ⟨s0, rfl, h0⟩
  | succ n ih =>
    obtain ⟨s1, h1, hi1⟩ := hstep n s0 (Nat.lt_succ_self n) h0
    obtain ⟨s2, h2, hi2⟩ := ih s1 hi1 (fun i s hi => hstep i s (Nat.lt_succ_of_lt hi))
    exact ⟨s2, by simp [forDown, h1, h2], hi2⟩

theorem forLoop_congr {σ : Type} (f g : Nat → σ → Option σ) (n : Nat) (s : σ)
    (h : ∀ i s, i < n → f i s = g i s) : forLoop f n s = forLoop g n s := by
  induction n with
  | zero => rfl
  | succ n ih =>
    simp only [forLoop]
    rw [ih (fun i s hi => h i s (Nat.lt_succ_of_lt hi))]
    cases forLoop g n s with
    | none => rfl
    | some s1 => exact h n s1 (Nat.lt_succ_self n)

theorem rd_eq (a : List Int) (i : Int) (n : Nat) (h : i = (n : Int)) : rd a i = a[n]? := by
  subst h; simp [rd]

theorem wr_eq (a : List Int) (i : Int) (n : Nat) (v : Int) (h : i = (n : Int))
    (hn : n < a.length) : wr a i v = some (a.set n v) := by
  subst h; simp [wr, hn]

theorem getElem?_allocArray (n : Nat) (init : Nat → Int) (j : Nat) (h : j < n) :
    (allocArray n init)[j]? = some (init j) := by
  simp [allocArray, h]

theorem length_allocArray (n : Nat) (init : Nat → Int) : (allocArray n init).length = n := by
  simp [allocArray]

theorem occ_succ (f : Nat → Int) (m : Nat) (g : Int) :
    occ f (m + 1) g = occ f m g + (if f m = g then 1 else 0) := by
  simp [occ, List.range_succ, List.countP_append, List.countP_cons]

theorem below_succ (f : Nat → Int) (m : Nat) (k : Int) :
    below f (m + 1) k = below f m k + (if f m < k then 1 else 0) := by
  simp [below, List.range_succ, List.countP_append, List.countP_cons]

theorem occ_mono (f : Nat → Int) (g : Int) {m n : Nat} (h : m ≤ n) : occ f m g ≤ occ f n g := by
  induction h with
  | refl => exact Nat.le_refl _
  | step _ ih => rw [occ_succ]; omega

theorem below_add_one (f : Nat → Int) (m : Nat) (k : Int) :
    below f m (k + 1) = below f m k + occ f m k := by
  induction m with
  | zero => simp [below, occ]
  | succ m ih =>
    rw [below_succ, below_succ, occ_succ, ih]
    split_ifs <;> omega

theorem below_eq_zero (f : Nat → Int) (m : Nat) (k : Int) (h : ∀ j, j < m → k ≤ f j) :
    below f m k = 0 := by
  induction m with
  | zero => simp [below]
  | succ m ih =>
    rw [below_succ, ih (fun j hj => h j (Nat.lt_succ_of_lt hj))]
    have := h m (Nat.lt_succ_self m)
    have h2 : ¬ f m < k := by omega
    simp [h2]

theorem below_eq_all (f : Nat → Int) (m : Nat) (k : Int) (h : ∀ j, j < m → f j < k) :
    below f m k = m := by
  induction m with
  | zero => simp [below]
  | succ m ih =>
    rw [below_succ, ih (fun j hj => h j (Nat.lt_succ_of_lt hj))]
    simp [h m (Nat.lt_succ_self m)]

theorem below_mono (f : Nat → Int) (m : Nat) {k l : Int} (h : k ≤ l) :
    below f m k ≤ below f m l := by
  induction m with
  | zero => simp [below]
  | succ m ih =>
    rw [below_succ, below_succ]
    by_cases h1 : f m < k
    · have h2 : f m < l := by omega
      simp [h1, h2]; exact ih
    · simp [h1]; omega

theorem lid_lt {E L e d : Nat} (he : e < E) (hd : d < L) : L * e + d < L * E := by
  have h : L * (e + 1) ≤ L * E := Nat.mul_le_mul_left L he
  rw [Nat.mul_add_one] at h
  omega

theorem nested_inv {σ : Type} (body : Nat → Nat → σ → Option σ) (P : Nat → σ → Prop)
    (E L : Nat) (s0 : σ) (h0 : P 0 s0)
    (hstep : ∀ e d s, e < E → d < L → P (L * e + d) s →
      ∃ s', body e d s = some s' ∧ P (L * e + d + 1) s') :
    ∃ s', forallLoop E (fun e s => forLoop (body e) L s) s0 = some s' ∧ P (L * E) s' := by
  unfold forallLoop
  apply forLoop_inv (fun e s => forLoop (body e) L s) (fun e s => P (L * e) s) E s0
  · simpa using h0
  · intro e s he hP
    have := forLoop_inv (body e) (fun d s => P (L * e + d) s) L s (by simpa using hP)
      (fun d s hd hs => hstep e d s he hd hs)
    simpa [Nat.mul_add_one] using this

theorem offsetsFlush_spec (n : Nat) (offs : List Int) (h : offs.length = n) :
    ∃ o, offsetsFlush n offs = some o ∧ o.length = n ∧ ∀ j, j < n → o[j]? = some 0 := by
  unfold offsetsFlush forallLoop
  apply forLoop_inv (fun i offs => wr offs (i : Int) 0)
    (fun i o => o.length = n ∧ ∀ j, j < i → o[j]? = some 0) n offs
  · exact ⟨h, by intro j hj; omega⟩
  · intro i s hi ⟨hl, hz⟩
    refine ⟨s.set i 0, wr_eq s i i 0 rfl (by omega), by simp [hl], ?_⟩
    intro j hj
    rw [List.getElem?_set]
    by_cases hij : i = j
    · subst hij; simp [hl, hi]
    · simp only [hij, if_false]; exact hz j (by omega)

theorem emF_getElem? (em : List Int) (j : Nat) (h : j < em.length) :
    em[j]? = some (emF em j) := by
  simp [emF, List.getD, h]

theorem emF_range {G : Nat} (em : List Int) (hrng : ∀ x ∈ em, 0 ≤ x ∧ x < (G : Int))
    (j : Nat) (h : j < em.length) : 0 ≤ emF em j ∧ emF em j < (G : Int) := by
  have : emF em j = em[j] := by simp [emF, List.getD, h]
  rw [this]; exact hrng _ (List.getElem_mem h)

theorem offsetFill_spec (G L E : Nat) (em offs : List Int)
    (hlen : em.length = L * E) (hrng : ∀ x ∈ em, 0 ≤ x ∧ x < (G : Int))
    (hl : offs.length = G + 1) (hz : ∀ j, j < G + 1 → offs[j]? = some 0) :
    ∃ o, offsetFill E L em offs = some o ∧ o.length = G + 1 ∧ o[0]? = some 0 ∧
      ∀ k, k < G → o[k + 1]? = some ((occ (emF em) (L * E) k : Nat) : Int) := by
  unfold offsetFill
  apply nested_inv
    (fun e d offs =>
      (rd em ((L : Int) * (e : Int) + (d : Int))).bind fun gid =>
      (rd offs (gid + 1)).bind fun c =>
      wr offs (gid + 1) (c + 1))
    (fun m o => o.length = G + 1 ∧ o[0]? = some 0 ∧
      ∀ k, k < G → o[k + 1]? = some ((occ (emF em) m k : Nat) : Int)) E L offs
  · refine ⟨hl, hz 0 (by omega), ?_⟩
    intro k hk
    simpa [occ] using hz (k + 1) (by omega)
  · intro e d s he hd ⟨hsl, hs0, hsk⟩
    have hj : L * e + d < em.length := by rw [hlen]; exact lid_lt he hd
    obtain ⟨hg0, hgG⟩ := emF_range em hrng _ hj
    obtain ⟨k, hk⟩ := Int.eq_ofNat_of_zero_le hg0
    have hkG : k < G := by omega
    refine ⟨s.set (k + 1) (((occ (emF em) (L * e + d) k : Nat) : Int) + 1), ?_, by simp [hsl], ?_, ?_⟩
    · rw [rd_eq em _ (L * e + d) (by push_cast; ring), emF_getElem? em _ hj]
      simp only [Option.some_bind, hk]
      rw [rd_eq s _ (k + 1) (by push_cast; ring), hsk k hkG]
      simp only [Option.some_bind]
      exact wr_eq s _ (k + 1) _ (by push_cast; ring) (by omega)
    · rw [List.getElem?_set]; simpa using hs0
    · intro k' hk'
      rw [List.getElem?_set, occ_succ, hk]
      by_cases hkk : k = k'
      · subst hkk; simp [hsl, hkG]
      · have h1 : ¬ (k + 1 = k' + 1) := by omega
        have h2 : ¬ ((k : Int) = (k' : Int)) := by omega
        simp only [h1, h2, if_false]
        simpa using hsk k' hk'

theorem below_zero_of_range {G : Nat} (em : List Int)
    (hrng : ∀ x ∈ em, 0 ≤ x ∧ x < (G : Int)) (m : Nat) (hm : m ≤ em.length) :
    below (emF em) m 0 = 0 :=
  below_eq_zero _ _ _ (fun j hj => (emF_range em hrng j (by omega)).1)

theorem below_top_of_range {G : Nat} (em : List Int)
    (hrng : ∀ x ∈ em, 0 ≤ x ∧ x < (G : Int)) (m : Nat) (hm : m ≤ em.length) :
    below (emF em) m (G : Int) = m :=
  below_eq_all _ _ _ (fun j hj => (emF_range em hrng j (by omega)).2)

theorem offsetsAggregate_spec (G N : Nat) (f : Nat → Int) (offs : List Int)
    (h0 : below f N 0 = 0)
    (hl : offs.length = G + 1) (hz : offs[0]? = some 0)
    (hc : ∀ k, k < G → offs[k + 1]? = some ((occ f N k : Nat) : Int)) :
    ∃ o, offsetsAggregate G 1 offs = some o ∧ o.length = G + 1 ∧
      ∀ k, k ≤ G → o[k]? = some ((below f N k : Nat) : Int) := by
  unfold offsetsAggregate forallLoop
  simp only [forLoop, Option.some_bind]
  obtain ⟨o, ho, hol, hlo, _⟩ := forLoop_inv
    (fun i offs =>
      (rd offs (((1 : Nat) : Int) + (i : Int))).bind fun a =>
      (rd offs (((1 : Nat) : Int) + ((i : Int) - 1))).bind fun b =>
      wr offs (((1 : Nat) : Int) + (i : Int)) (a + b))
    (fun i o => o.length = G + 1 ∧
      (∀ k, k ≤ i → o[k]? = some ((below f N k : Nat) : Int)) ∧
      (∀ k, i ≤ k → k < G → o[k + 1]? = some ((occ f N k : Nat) : Int))) G offs
    ⟨hl, by
      intro k hk
      have : k = 0 := by omega
      subst this
      simpa [h0] using hz, fun k _ hk => hc k hk⟩
    (by
      intro i s hi ⟨hsl, hlo, hhi⟩
      refine ⟨s.set (i + 1) (((occ f N i : Nat) : Int) + ((below f N i : Nat) : Int)), ?_,
        by simp [hsl], ?_, ?_⟩
      · dsimp only
        rw [rd_eq s _ (i + 1) (by push_cast; ring), hhi i (Nat.le_refl i) hi]
        simp only [Option.some_bind]
        rw [rd_eq s _ i (by push_cast; ring), hlo i (Nat.le_refl i)]
        simp only [Option.some_bind]
        exact wr_eq s _ (i + 1) _ (by push_cast; ring) (by omega)
      · intro k hk
        rw [List.getElem?_set]
        by_cases hki : i + 1 = k
        · subst hki
          have := below_add_one f N (i : Int)
          rw [if_pos rfl, if_pos (by omega)]
          congr 1
          push_cast
          rw [this]; push_cast; ring
        · simp only [hki, if_false]; exact hlo k (by omega)
      · intro k hk hkG
        rw [List.getElem?_set]
        have h1 : ¬ (i + 1 = k + 1) := by omega
        simp only [h1, if_false]; exact hhi k (by omega) hkG)
  exact ⟨o, ho, hol, hlo⟩

theorem offsetsShift_spec (G : Nat) (v : Nat → Int) (offs : List Int)
    (hl : offs.length = G + 1) (hv : ∀ k, k ≤ G → offs[k]? = some (v k)) :
    ∃ o, offsetsShift G offs = some o ∧ o.length = G + 1 ∧ o[0]? = some 0 ∧
      ∀ k, k < G → o[k + 1]? = some (v k) := by
  unfold offsetsShift forallLoop
  simp only [forLoop, Option.some_bind]
  obtain ⟨o, ho, hol, _, hhi⟩ := forDown_inv
    (fun i offs => (rd offs ((i : Int) - 1)).bind fun v => wr offs (i : Int) v)
    (fun i o => o.length = G + 1 ∧ (∀ k, k ≤ i → o[k]? = some (v k)) ∧
      (∀ k, i ≤ k → k < G → o[k + 1]? = some (v k))) G offs
    ⟨hl, hv, fun k h1 h2 => by omega⟩
    (by
      intro i s hi ⟨hsl, hlo, hhi⟩
      refine ⟨s.set (i + 1) (v i), ?_, by simp [hsl], ?_, ?_⟩
      · dsimp only
        rw [rd_eq s _ i (by push_cast; ring), hlo i (by omega)]
        simp only [Option.some_bind]
        exact wr_eq s _ (i + 1) _ rfl (by omega)
      · intro k hk
        rw [List.getElem?_set]
        have h1 : ¬ (i + 1 = k) := by omega
        simp only [h1, if_false]; exact hlo k (by omega)
      · intro k hk hkG
        rw [List.getElem?_set]
        by_cases hki : i = k
        · subst hki; simp [hsl, hkG]
        · have h1 : ¬ (i + 1 = k + 1) := by omega
          simp only [h1, if_false]; exact hhi k (by omega) hkG)
  refine ⟨o.set 0 0, ?_, by simp [hol], ?_, ?_⟩
  · rw [ho]; simp only [Option.some_bind]
    exact wr_eq o 0 0 0 rfl (by omega)
  · simp [hol]
  · intro k hk
    rw [List.getElem?_set]
    have h1 : ¬ (0 = k + 1) := by omega
    simp only [h1, if_false]; exact hhi k (by omega) hk

theorem occ_add (f : Nat → Int) (a b : Nat) (g : Int) :
    occ f (a + b) g = occ f a g + occ (fun d => f (a + d)) b g := by
  induction b with
  | zero => simp [occ]
  | succ b ih => rw [← Nat.add_assoc, occ_succ, occ_succ, ih]; omega

theorem occ_congr (f f' : Nat → Int) (m : Nat) (g : Int) (h : ∀ j, j < m → f j = f' j) :
    occ f m g = occ f' m g := by
  induction m with
  | zero => simp [occ]
  | succ m ih =>
    rw [occ_succ, occ_succ, ih (fun j hj => h j (Nat.lt_succ_of_lt hj)), h m (Nat.lt_succ_self m)]

theorem occ_le (f : Nat → Int) (m : Nat) (g : Int) : occ f m g ≤ m := by
  induction m with
  | zero => simp [occ]
  | succ m ih => rw [occ_succ]; split_ifs <;> omega

theorem below_le (f : Nat → Int) (m : Nat) (k : Int) : below f m k ≤ m := by
  induction m with
  | zero => simp [below]
  | succ m ih => rw [below_succ]; split_ifs <;> omega

theorem occ_comp_perm (h : Nat → Int) (σ : Nat → Nat) (L : Nat) (g : Int)
    (hσ : ((List.range L).map σ).Perm (List.range L)) :
    occ (fun d => h (σ d)) L g = occ h L g := by
  have h1 : occ (fun d => h (σ d)) L g
      = ((List.range L).map σ).countP (fun j => decide (h j = g)) := by
    simp only [occ, List.countP_map]; rfl
  rw [h1]; exact hσ.countP_eq _

theorem didF_spec {G L E : Nat} {dm em : List Int} (hv : ValidInput G L E dm em)
    (d : Nat) (hd : d < L) :
    (if (dm.length == 0) = true then some (d : Int) else rd dm (d : Int)) = some (didF dm d) ∧
      ∃ d', d' < L ∧ didF dm d = (d' : Int) := by
  by_cases h : dm.length = 0
  · exact ⟨by simp [didF, h], d, hd, by simp [didF, h]⟩
  · have hp : dm.Perm ((List.range L).map Int.ofNat) := by
      rcases hv.perm with h1 | h1
      · subst h1; simp at h
      · exact h1
    have hlen : dm.length = L := by simpa using hp.length_eq
    have hdl : d < dm.length := by omega
    have hget : didF dm d = dm[d] := by simp [didF, h, List.getD, hdl]
    have hmem : dm[d] ∈ (List.range L).map Int.ofNat := hp.subset (List.getElem_mem hdl)
    constructor
    · rw [rd_eq dm _ d rfl, hget]; simp [h, hdl]
    · simp only [List.mem_map, List.mem_range] at hmem
      obtain ⟨d', hd', he⟩ := hmem
      exact ⟨d', hd', by rw [hget, ← he]; rfl⟩

theorem didF_perm {G L E : Nat} {dm em : List Int} (hv : ValidInput G L E dm em) :
    ((List.range L).map (fun d => (didF dm d).toNat)).Perm (List.range L) := by
  by_cases h : dm.length = 0
  · have : (List.range L).map (fun d => (didF dm d).toNat) = List.range L := by
      conv_rhs => rw [← List.map_id (List.range L)]
      apply List.map_congr_left
      intro d _; simp [didF, h]
    rw [this]
  · have hp : dm.Perm ((List.range L).map Int.ofNat) := by
      rcases hv.perm with h1 | h1
      · subst h1; simp at h
      · exact h1
    have hlen : dm.length = L := by simpa using hp.length_eq
    have h1 : (List.range L).map (fun d => (didF dm d).toNat) = dm.map Int.toNat := by
      apply List.ext_getElem
      · simp [hlen]
      · intro i h1 h2
        simp at h1
        have hL : ¬ L = 0 := by omega
        simp [didF, List.getD, hlen, h1, hL]
    have h2 : ((List.range L).map Int.ofNat).map Int.toNat = List.range L := by
      rw [List.map_map]
      conv_rhs => rw [← List.map_id (List.range L)]
      apply List.map_congr_left
      intro d _; simp
    rw [h1, ← h2]
    exact hp.map _

theorem gidF_eq (L : Nat) (dm em : List Int) (e d : Nat) (hd : d < L) :
    gidF L dm em (L * e + d) = emF em (L * e + (didF dm d).toNat) := by
  have hL : 0 < L := by omega
  have h1 : (L * e + d) / L = e := by
    rw [Nat.mul_add_div hL, Nat.div_eq_of_lt hd]; rfl
  have h2 : (L * e + d) % L = d := by
    rw [Nat.mul_add_mod]; exact Nat.mod_eq_of_lt hd
  simp [gidF, emF, h1, h2]

theorem occ_gidF {G L E : Nat} {dm em : List Int} (hv : ValidInput G L E dm em)
    (e : Nat) (g : Int) :
    occ (gidF L dm em) (L * e) g = occ (emF em) (L * e) g := by
  induction e with
  | zero => simp [occ]
  | succ e ih =>
    rw [Nat.mul_add_one, occ_add, occ_add, ih]
    congr 1
    rw [occ_congr (fun d => gidF L dm em (L * e + d))
      (fun d => emF em (L * e + (didF dm d).toNat)) L g (fun d hd => gidF_eq L dm em e d hd)]
    exact occ_comp_perm (fun d => emF em (L * e + d)) (fun d => (didF dm d).toNat) L g
      (didF_perm hv)

theorem scatter_reads {G L E : Nat} {dm em : List Int} (hv : ValidInput G L E dm em)
    (e d : Nat) (he : e < E) (hd : d < L) :
    ∃ did : Int, (if (dm.length == 0) = true then some (d : Int) else rd dm (d : Int)) = some did ∧
      rd em ((L : Int) * (e : Int) + did) = some (gidF L dm em (L * e + d)) ∧
      0 ≤ gidF L dm em (L * e + d) ∧ gidF L dm em (L * e + d) < (G : Int) := by
  obtain ⟨h1, d', hd', h2⟩ := didF_spec hv d hd
  have hlen : em.length = L * E := by rw [hv.length_eq, Nat.mul_comm]
  have hj : L * e + d' < em.length := by rw [hlen]; exact lid_lt he hd'
  have hg : gidF L dm em (L * e + d) = emF em (L * e + d') := by
    rw [gidF_eq L dm em e d hd, h2]; simp
  refine ⟨didF dm d, h1, ?_, ?_⟩
  · rw [h2, rd_eq em _ (L * e + d') (by push_cast; ring), emF_getElem? em _ hj, hg]
  · rw [hg]; exact emF_range em hv.in_range _ hj

theorem scatter_step (G N : Nat) (f : Nat → Int) (start : Nat → Nat)
    (hst : ∀ k, k < G → start (k + 1) = start k + occ f N k)
    (hmono : ∀ k k', k ≤ k' → k' ≤ G → start k ≤ start k')
    (hN : start G ≤ N)
    (m : Nat) (hm : m < N) (k : Nat) (hkG : k < G) (hk : f m = (k : Int))
    (st : MapState) (hinv : ScatterInv G N f start m st) :
    ∃ st', ((rd st.offsets (f m)).bind fun pos =>
        (wr st.offsets (f m) (pos + 1)).bind fun offs =>
        (wr st.indices pos (m : Int)).bind fun ind =>
        (wr st.map (m : Int) (f m)).bind fun mp =>
        some (MapState.mk offs ind mp)) = some st' ∧ ScatterInv G N f start (m + 1) st' := by
  obtain ⟨hol, hil, hml, hoff, hind, hmap⟩ := hinv
  have hocc1 : occ f (m + 1) k = occ f m k + 1 := by rw [occ_succ, hk]; simp
  have hoccN : occ f (m + 1) k ≤ occ f N k := occ_mono f k (by omega)
  have hbucket : ∀ k' r, k' < G → r < occ f m k' → start k' + r < start (k' + 1) := by
    intro k' r hk' hr
    have := occ_mono f k' (show m ≤ N by omega)
    rw [hst k' hk']; omega
  have hpos : start k + occ f m k < N := by
    have h1 := hst k hkG
    have h2 := hmono (k + 1) G (by omega) (Nat.le_refl G)
    omega
  refine ⟨⟨st.offsets.set k (((start k + occ f m k : Nat) : Int) + 1),
    st.indices.set (start k + occ f m k) (m : Int), st.map.set m (f m)⟩, ?_, ?_⟩
  · rw [hk, rd_eq st.offsets _ k rfl, hoff k (by omega)]
    simp only [Option.some_bind]
    rw [wr_eq st.offsets _ k _ rfl (by omega)]
    simp only [Option.some_bind]
    rw [wr_eq st.indices _ (start k + occ f m k) _ rfl (by omega)]
    simp only [Option.some_bind]
    rw [wr_eq st.map _ m _ rfl (by omega)]
    simp only [Option.some_bind]
  · refine ⟨by simp [hol], by simp [hil], by simp [hml], ?_, ?_, ?_⟩
    · intro k' hk'
      show (st.offsets.set k _)[k']? = _
      rw [List.getElem?_set]
      by_cases hkk : k = k'
      · subst hkk
        rw [if_pos rfl, if_pos (by omega), hocc1]
        congr 1
      · have : ¬ ((f m) = (k' : Int)) := by rw [hk]; omega
        rw [if_neg hkk, occ_succ, if_neg this]; exact hoff k' hk'
    · intro k' r hk' hr
      show ∃ lid, _ ∧ _ ∧ _ ∧ (st.indices.set _ _)[start k' + r]? = _
      by_cases hnew : k' = k ∧ r = occ f m k
      · obtain ⟨h1, h2⟩ := hnew
        subst h1; subst h2
        exact ⟨m, by omega, hk, rfl, by rw [List.getElem?_set, if_pos rfl, if_pos (by omega)]⟩
      · have hr' : r < occ f m k' := by
          rw [occ_succ] at hr
          by_cases hkk : k' = k
          · subst hkk
            have : r ≠ occ f m k' := fun h => hnew ⟨rfl, h⟩
            rw [if_pos hk] at hr; omega
          · have : ¬ (f m = (k' : Int)) := by rw [hk]; omega
            rw [if_neg this] at hr; omega
        obtain ⟨lid, hlid, hfl, hol', hget⟩ := hind k' r hk' hr'
        refine ⟨lid, by omega, hfl, hol', ?_⟩
        rw [List.getElem?_set]
        have hne : ¬ (start k + occ f m k = start k' + r) := by
          intro heq
          by_cases hkk : k' = k
          · subst hkk; exact hnew ⟨rfl, by omega⟩
          · have hb1 := hbucket k' r hk' hr'
            have hb2 : start k + occ f m k < start (k + 1) := by rw [hst k hkG]; omega
            rcases Nat.lt_or_gt_of_ne hkk with h | h
            · have := hmono (k' + 1) k (by omega) (by omega); omega
            · have := hmono (k + 1) k' (by omega) (by omega); omega
        rw [if_neg hne]; exact hget
    · intro lid hlid
      show (st.map.set m _)[lid]? = _
      rw [List.getElem?_set]
      by_cases hml' : m = lid
      · subst hml'; rw [if_pos rfl, if_pos (by omega)]
      · rw [if_neg hml']; exact hmap lid (by omega)

theorem bucketStart_succ {G L E : Nat} {dm em : List Int} (hv : ValidInput G L E dm em)
    (k : Nat) :
    bucketStart L E em (k + 1) = bucketStart L E em k + occ (gidF L dm em) (L * E) k := by
  unfold bucketStart
  rw [occ_gidF hv E k]
  push_cast
  exact below_add_one _ _ _

theorem bucketStart_mono (L E : Nat) (em : List Int) {k k' : Nat} (h : k ≤ k') :
    bucketStart L E em k ≤ bucketStart L E em k' :=
  below_mono _ _ (by omega)

theorem bucketStart_zero {G L E : Nat} {dm em : List Int} (hv : ValidInput G L E dm em) :
    bucketStart L E em 0 = 0 :=
  below_zero_of_range em hv.in_range _ (by rw [hv.length_eq, Nat.mul_comm])

theorem bucketStart_top {G L E : Nat} {dm em : List Int} (hv : ValidInput G L E dm em) :
    bucketStart L E em G = L * E :=
  below_top_of_range em hv.in_range _ (by rw [hv.length_eq, Nat.mul_comm])

theorem fillIndicesAndMap_spec {G L E : Nat} {dm em : List Int}
    (hv : ValidInput G L E dm em) (st0 : MapState)
    (hol : st0.offsets.length = G + 1) (hil : st0.indices.length = L * E)
    (hml : st0.map.length = L * E)
    (hoff : ∀ k, k ≤ G → st0.offsets[k]? = some ((bucketStart L E em k : Nat) : Int)) :
    ∃ st, fillIndicesAndMap E L (dm.length == 0) dm em st0 = some st ∧
      ScatterInv G (L * E) (gidF L dm em) (bucketStart L E em) (L * E) st := by
  unfold fillIndicesAndMap
  apply nested_inv
    (fun e d st =>
      (if (dm.length == 0) = true then some (d : Int) else rd dm (d : Int)).bind fun did =>
      (rd em ((L : Int) * (e : Int) + did)).bind fun gid =>
      let lid : Int := (L : Int) * (e : Int) + (d : Int)
      (rd st.offsets gid).bind fun pos =>
      (wr st.offsets gid (pos + 1)).bind fun offs =>
      (wr st.indices pos lid).bind fun ind =>
      (wr st.map lid gid).bind fun mp =>
      some ⟨offs, ind, mp⟩)
    (fun m st => ScatterInv G (L * E) (gidF L dm em) (bucketStart L E em) m st) E L st0
  · refine ⟨hol, hil, hml, ?_, ?_, ?_⟩
    · intro k hk; simpa [occ] using hoff k hk
    · intro k r _ hr; simp [occ] at hr
    · intro lid hlid; omega
  · intro e d st he hd hinv
    obtain ⟨did, hdid, hrd, hg0, hgG⟩ := scatter_reads hv e d he hd
    obtain ⟨k, hk⟩ := Int.eq_ofNat_of_zero_le hg0
    have hkG : k < G := by omega
    have hlid : (L : Int) * (e : Int) + (d : Int) = ((L * e + d : Nat) : Int) := by
      push_cast; ring
    dsimp only
    rw [hdid]
    simp only [Option.some_bind]
    rw [hrd]
    simp only [Option.some_bind]
    rw [hlid]
    exact scatter_step G (L * E) (gidF L dm em) (bucketStart L E em)
      (fun k _ => bucketStart_succ hv k)
      (fun k k' h _ => bucketStart_mono L E em h)
      (by rw [bucketStart_top hv])
      (L * e + d) (lid_lt he hd) k hkG hk st hinv

theorem buildMapping_spec {G L E : Nat} {dm em : List Int}
    (hv : ValidInput G L E dm em) (uninit : Nat → Nat → Int) :
    ∃ st, buildMapping G L E dm em uninit = some st ∧ MappingSpec G L E dm em st := by
  have hlen : em.length = L * E := by rw [hv.length_eq, Nat.mul_comm]
  obtain ⟨o1, e1, l1, z1⟩ := offsetsFlush_spec (G + 1) (allocArray (G + 1) (uninit 0))
    (length_allocArray _ _)
  obtain ⟨o2, e2, l2, z2, c2⟩ := offsetFill_spec G L E em o1 hlen hv.in_range l1 z1
  obtain ⟨o3, e3, l3, c3⟩ := offsetsAggregate_spec G (L * E) (emF em) o2
    (below_zero_of_range em hv.in_range _ (by omega)) l2 z2 c2
  obtain ⟨st, e4, hol, hil, hml, hoff, hind, hmap⟩ := fillIndicesAndMap_spec hv
    ⟨o3, allocArray (L * E) (uninit 1), allocArray (L * E) (uninit 2)⟩
    l3 (length_allocArray _ _) (length_allocArray _ _) c3
  obtain ⟨o5, e5, l5, z5, c5⟩ := offsetsShift_spec G
    (fun k => ((bucketStart L E em k + occ (gidF L dm em) (L * E) k : Nat) : Int))
    st.offsets hol hoff
  refine ⟨{ st with offsets := o5 }, ?_, ⟨l5, hil, hml, ?_, hind, hmap⟩⟩
  · simp only [buildMapping, e1, e2, e3, e4, e5, Option.some_bind]
  · intro k hk
    show o5[k]? = _
    cases k with
    | zero => rw [z5, bucketStart_zero hv]; rfl
    | succ k => rw [c5 k (by omega), bucketStart_succ hv k]

theorem validInput_example : ValidInput 3 2 2 [1, 0] [0, 1, 1, 2] := by decide

/-- C1: for every valid builder input the five passes return, and the offsets
array they produce has length `globalDofs+1`, is non-decreasing, starts with
`offsets[0] = 0` and ends with `offsets[globalDofs] = elements*localDofs`. -/
theorem buildMapping_offsets_shape {G L E : Nat} {dm em : List Int}
    (hv : ValidInput G L E dm em) (uninit : Nat → Nat → Int) :
    ∃ st, buildMapping G L E dm em uninit = some st ∧
      st.offsets.length = G + 1 ∧
      st.offsets.Pairwise (fun a b => a ≤ b) ∧
      st.offsets[0]? = some 0 ∧
      st.offsets[G]? = some (((E * L : Nat)) : Int) := by
  obtain ⟨st, hst, hs⟩ := buildMapping_spec hv uninit
  refine ⟨st, hst, hs.offsets_length, ?_, ?_, ?_⟩
  · rw [List.pairwise_iff_getElem]
    intro i j hi hj hij
    have h1 := hs.offsets_eq i (by have := hs.offsets_length; omega)
    have h2 := hs.offsets_eq j (by have := hs.offsets_length; omega)
    rw [List.getElem_eq_iff.mpr h1, List.getElem_eq_iff.mpr h2]
    exact Int.ofNat_le.mpr (bucketStart_mono L E em (Nat.le_of_lt hij))
  · rw [hs.offsets_eq 0 (Nat.zero_le G), bucketStart_zero hv]; rfl
  · rw [hs.offsets_eq G (Nat.le_refl G), bucketStart_top hv, Nat.mul_comm]

theorem buildMapping_offsets_shape_witness :
    ValidInput 3 2 2 [1, 0] [0, 1, 1, 2] ∧
    ∃ st, buildMapping 3 2 2 [1, 0] [0, 1, 1, 2] (fun _ _ => 0) = some st ∧
      st.offsets.length = 3 + 1 ∧
      st.offsets.Pairwise (fun a b => a ≤ b) ∧
      st.offsets[0]? = some 0 ∧
      st.offsets[3]? = some (((2 * 2 : Nat)) : Int) :=
  ⟨validInput_example, buildMapping_offsets_shape validInput_example (fun _ _ => 0)⟩

/-- C2: for every valid builder input, every global DOF `g < globalDofs` and
every position `k` with `offsets[g] ≤ k < offsets[g+1]`, the entry `indices[k]`
exists and `map[indices[k]] = g`. -/
theorem buildMapping_round_trip {G L E : Nat} {dm em : List Int}
    (hv : ValidInput G L E dm em) (uninit : Nat → Nat → Int) :
    ∃ st, buildMapping G L E dm em uninit = some st ∧
      ∀ g : Nat, g < G → ∃ a b, rd st.offsets (g : Int) = some a ∧
        rd st.offsets ((g : Int) + 1) = some b ∧
        ∀ k : Int, a ≤ k → k < b →
          ∃ lid, rd st.indices k = some lid ∧ rd st.map lid = some (g : Int) := by
  obtain ⟨st, hst, hs⟩ := buildMapping_spec hv uninit
  refine ⟨st, hst, ?_⟩
  intro g hg
  refine ⟨((bucketStart L E em g : Nat) : Int), ((bucketStart L E em (g + 1) : Nat) : Int),
    ?_, ?_, ?_⟩
  · rw [rd_eq _ _ g rfl]; exact hs.offsets_eq g (by omega)
  · rw [rd_eq _ _ (g + 1) (by push_cast; ring)]; exact hs.offsets_eq (g + 1) (by omega)
  · intro k hak hkb
    rw [bucketStart_succ hv g] at hkb
    obtain ⟨r, hr⟩ := Int.eq_ofNat_of_zero_le (show 0 ≤ k - (bucketStart L E em g : Int) by omega)
    obtain ⟨lid, hlid, hf, _, hget⟩ := hs.indices_eq g r hg (by omega)
    refine ⟨(lid : Int), ?_, ?_⟩
    · rw [rd_eq _ _ (bucketStart L E em g + r) (by push_cast; omega)]; exact hget
    · rw [rd_eq _ _ lid rfl, hs.map_eq lid hlid, hf]

theorem buildMapping_round_trip_witness :
    ValidInput 3 2 2 [1, 0] [0, 1, 1, 2] ∧
    ∃ st, buildMapping 3 2 2 [1, 0] [0, 1, 1, 2] (fun _ _ => 0) = some st ∧
      ∀ g : Nat, g < 3 → ∃ a b, rd st.offsets (g : Int) = some a ∧
        rd st.offsets ((g : Int) + 1) = some b ∧
        ∀ k : Int, a ≤ k → k < b →
          ∃ lid, rd st.indices k = some lid ∧ rd st.map lid = some (g : Int) :=
  ⟨validInput_example, buildMapping_round_trip validInput_example (fun _ _ => 0)⟩

/-- C4: for every valid builder input, element `e < elements` and node
`d < localDofs`, the builder sets `map[localDofs*e + d]` to
`elementMap[localDofs*e + dofMap[d]]` when `dofMap` is non-empty and to
`elementMap[localDofs*e + d]` when it is empty; the value is a global DOF id in
`[0, globalDofs)`. -/
theorem buildMapping_map_entries {G L E : Nat} {dm em : List Int}
    (hv : ValidInput G L E dm em) (uninit : Nat → Nat → Int) :
    ∃ st, buildMapping G L E dm em uninit = some st ∧
      ∀ e d : Nat, e < E → d < L →
        ∃ gid : Int, rd st.map ((L : Int) * (e : Int) + (d : Int)) = some gid ∧
          0 ≤ gid ∧ gid < (G : Int) ∧
          (dm = [] → rd em ((L : Int) * (e : Int) + (d : Int)) = some gid) ∧
          (dm ≠ [] → ∃ did, rd dm (d : Int) = some did ∧
            rd em ((L : Int) * (e : Int) + did) = some gid) := by
  obtain ⟨st, hst, hs⟩ := buildMapping_spec hv uninit
  refine ⟨st, hst, ?_⟩
  intro e d he hd
  obtain ⟨did, hdid, hrd, hg0, hgG⟩ := scatter_reads hv e d he hd
  refine ⟨gidF L dm em (L * e + d), ?_, hg0, hgG, ?_, ?_⟩
  · rw [rd_eq _ _ (L * e + d) (by push_cast; ring)]
    exact hs.map_eq _ (lid_lt he hd)
  · intro h
    subst h
    simp at hdid
    rw [hdid]; exact hrd
  · intro h
    have h' : ¬ dm.length = 0 := fun h0 => h (List.length_eq_zero.mp h0)
    simp [h'] at hdid
    exact ⟨did, hdid, hrd⟩

theorem buildMapping_map_entries_witness :
    ValidInput 3 2 2 [1, 0] [0, 1, 1, 2] ∧
    ∃ st, buildMapping 3 2 2 [1, 0] [0, 1, 1, 2] (fun _ _ => 0) = some st ∧
      ∀ e d : Nat, e < 2 → d < 2 →
        ∃ gid : Int, rd st.map (((2 : Nat) : Int) * (e : Int) + (d : Int)) = some gid ∧
          0 ≤ gid ∧ gid < ((3 : Nat) : Int) ∧
          (([1, 0] : List Int) = [] →
            rd [0, 1, 1, 2] (((2 : Nat) : Int) * (e : Int) + (d : Int)) = some gid) ∧
          (([1, 0] : List Int) ≠ [] → ∃ did, rd [1, 0] (d : Int) = some did ∧
            rd [0, 1, 1, 2] (((2 : Nat) : Int) * (e : Int) + did) = some gid) :=
  ⟨validInput_example, buildMapping_map_entries validInput_example (fun _ _ => 0)⟩

theorem length_entriesOf (f : Nat → Int) (n : Nat) (g : Int) :
    (entriesOf f n g).length = occ f n g := by
  simp [entriesOf, occ, List.countP_eq_length_filter]

theorem entriesOf_succ (f : Nat → Int) (n : Nat) (g : Int) :
    entriesOf f (n + 1) g = entriesOf f n g ++ (if f n = g then [n] else []) := by
  simp only [entriesOf, List.range_succ, List.filter_append]
  congr 1
  by_cases h : f n = g <;> simp [h]

theorem entriesOf_getElem? (f : Nat → Int) (g : Int) (n lid : Nat) (hlid : lid < n)
    (hf : f lid = g) : (entriesOf f n g)[occ f lid g]? = some lid := by
  induction n with
  | zero => omega
  | succ n ih =>
    rw [entriesOf_succ]
    by_cases h : lid < n
    · have h1 : occ f (lid + 1) g ≤ occ f n g := occ_mono f g (by omega)
      rw [occ_succ, if_pos hf] at h1
      rw [List.getElem?_append_left (by rw [length_entriesOf]; omega)]
      exact ih h
    · have h1 : lid = n := by omega
      subst h1
      rw [List.getElem?_append_right (by rw [length_entriesOf]), length_entriesOf, if_pos hf]
      simp

theorem bucket_eq {G L E : Nat} {dm em : List Int} (hv : ValidInput G L E dm em)
    {st : MapState} (hs : MappingSpec G L E dm em st) (g : Nat) (hg : g < G) :
    bucket st g = (entriesOf (gidF L dm em) (L * E) g).map Int.ofNat := by
  have ha : (st.offsets.getD g 0).toNat = bucketStart L E em g := by
    simp [hs.offsets_eq g (by omega)]
  have hb : (st.offsets.getD (g + 1) 0).toNat
      = bucketStart L E em g + occ (gidF L dm em) (L * E) g := by
    simp only [List.getD_eq_getElem?_getD, hs.offsets_eq (g + 1) (by omega), Option.getD_some,
      Int.toNat_ofNat, bucketStart_succ hv g]
  apply List.ext_getElem?
  intro n
  unfold bucket
  rw [ha, hb, List.getElem?_take, List.getElem?_drop, List.getElem?_map]
  by_cases hn : n < occ (gidF L dm em) (L * E) g
  · obtain ⟨lid, hlid, hf, ho, hget⟩ := hs.indices_eq g n hg hn
    rw [if_pos (by omega), hget, ← ho, entriesOf_getElem? _ _ _ _ hlid hf]
    rfl
  · rw [if_neg (by omega), List.getElem?_eq_none (by rw [length_entriesOf]; omega)]
    rfl

theorem mem_entriesOf (f : Nat → Int) (n : Nat) (g : Int) (lid : Nat) :
    lid ∈ entriesOf f n g ↔ lid < n ∧ f lid = g := by
  simp [entriesOf]

theorem indices_mem {G L E : Nat} {dm em : List Int} (hv : ValidInput G L E dm em)
    {st : MapState} (hs : MappingSpec G L E dm em st) (lid : Nat) (hlid : lid < L * E) :
    (lid : Int) ∈ st.indices := by
  have hlen : em.length = L * E := by rw [hv.length_eq, Nat.mul_comm]
  have hL : 0 < L := by
    rcases Nat.eq_zero_or_pos L with h | h
    · subst h; simp at hlid
    · exact h
  have he : lid / L < E := by
    apply Nat.div_lt_of_lt_mul; exact hlid
  obtain ⟨_, _, _, hg0, hgG⟩ := scatter_reads hv (lid / L) (lid % L) he (Nat.mod_lt _ hL)
  rw [Nat.div_add_mod] at hg0 hgG
  obtain ⟨k, hk⟩ := Int.eq_ofNat_of_zero_le hg0
  have h1 : occ (gidF L dm em) (lid + 1) k ≤ occ (gidF L dm em) (L * E) k :=
    occ_mono _ _ (by omega)
  rw [occ_succ, if_pos hk] at h1
  obtain ⟨lid', hlid', hf', ho', hget⟩ :=
    hs.indices_eq k (occ (gidF L dm em) lid k) (by omega) (by omega)
  have heq : lid' = lid := by
    rcases Nat.lt_trichotomy lid' lid with h | h | h
    · have := occ_mono (gidF L dm em) k (show lid' + 1 ≤ lid by omega)
      rw [occ_succ, if_pos hf'] at this
      omega
    · exact h
    · have := occ_mono (gidF L dm em) k (show lid + 1 ≤ lid' by omega)
      rw [occ_succ, if_pos hk] at this
      omega
  subst heq
  exact List.getElem?_mem hget

theorem indices_perm {G L E : Nat} {dm em : List Int} (hv : ValidInput G L E dm em)
    {st : MapState} (hs : MappingSpec G L E dm em st) :
    st.indices.Perm ((List.range (L * E)).map Int.ofNat) := by
  apply List.Perm.symm
  apply List.Subperm.perm_of_length_le
  · apply List.subperm_of_subset
    · exact (List.nodup_range _).map (fun a b h => Int.ofNat.inj h)
    · intro x hx
      simp only [List.mem_map, List.mem_range] at hx
      obtain ⟨lid, hlid, rfl⟩ := hx
      exact indices_mem hv hs lid hlid
  · simp [hs.indices_length]

theorem entriesOf_map_eq {G L E : Nat} {dm em : List Int}
    {st : MapState} (hs : MappingSpec G L E dm em st) (g : Int) :
    (List.range (L * E)).filter (fun lid => decide (st.map.getD lid 0 = g))
      = entriesOf (gidF L dm em) (L * E) g := by
  unfold entriesOf
  apply List.filter_congr
  intro lid hlid
  rw [List.mem_range] at hlid
  simp [hs.map_eq lid hlid]

/-- C3: for every valid builder input, `indices` is a permutation of the
local-entry ids `0..elements*localDofs-1`; for every global DOF `g` the slice
`indices[offsets[g]..offsets[g+1])` holds exactly the local entries `lid` with
`map[lid] = g`, each once; and no entry lies in the buckets of two different
global DOFs. -/
theorem buildMapping_indices_partition {G L E : Nat} {dm em : List Int}
    (hv : ValidInput G L E dm em) (uninit : Nat → Nat → Int) :
    ∃ st, buildMapping G L E dm em uninit = some st ∧
      st.indices.Perm ((List.range (E * L)).map Int.ofNat) ∧
      (∀ g : Nat, g < G → (bucket st g).Nodup ∧ (bucket st g).Perm
        (((List.range (E * L)).filter
          (fun lid => decide (st.map.getD lid 0 = (g : Int)))).map Int.ofNat)) ∧
      (∀ (g1 g2 : Nat) (x : Int), g1 < G → g2 < G →
        x ∈ bucket st g1 → x ∈ bucket st g2 → g1 = g2) := by
  obtain ⟨st, hst, hs⟩ := buildMapping_spec hv uninit
  refine ⟨st, hst, ?_, ?_, ?_⟩
  · rw [Nat.mul_comm]; exact indices_perm hv hs
  · intro g hg
    rw [Nat.mul_comm E L, entriesOf_map_eq hs, bucket_eq hv hs g hg]
    refine ⟨?_, List.Perm.refl _⟩
    exact ((List.nodup_range _).filter _).map (fun a b h => Int.ofNat.inj h)
  · intro g1 g2 x h1 h2 hx1 hx2
    rw [bucket_eq hv hs g1 h1, List.mem_map] at hx1
    rw [bucket_eq hv hs g2 h2, List.mem_map] at hx2
    obtain ⟨l1, hl1, rfl⟩ := hx1
    obtain ⟨l2, hl2, he⟩ := hx2
    have : l2 = l1 := Int.ofNat.inj he
    subst this
    rw [mem_entriesOf] at hl1 hl2
    have := hl1.2.symm.trans hl2.2
    omega

theorem buildMapping_indices_partition_witness :
    ValidInput 3 2 2 [1, 0] [0, 1, 1, 2] ∧
    ∃ st, buildMapping 3 2 2 [1, 0] [0, 1, 1, 2] (fun _ _ => 0) = some st ∧
      st.indices.Perm ((List.range (2 * 2)).map Int.ofNat) ∧
      (∀ g : Nat, g < 3 → (bucket st g).Nodup ∧ (bucket st g).Perm
        (((List.range (2 * 2)).filter
          (fun lid => decide (st.map.getD lid 0 = (g : Int)))).map Int.ofNat)) ∧
      (∀ (g1 g2 : Nat) (x : Int), g1 < 3 → g2 < 3 →
        x ∈ bucket st g1 → x ∈ bucket st g2 → g1 = g2) :=
  ⟨validInput_example, buildMapping_indices_partition validInput_example (fun _ _ => 0)⟩

theorem occ_inj (f : Nat → Int) (g : Int) (l1 l2 : Nat) (h1 : f l1 = g) (h2 : f l2 = g)
    (h : occ f l1 g = occ f l2 g) : l1 = l2 := by
  rcases Nat.lt_trichotomy l1 l2 with h' | h' | h'
  · have := occ_mono f g (show l1 + 1 ≤ l2 by omega)
    rw [occ_succ, if_pos h1] at this
    omega
  · exact h'
  · have := occ_mono f g (show l2 + 1 ≤ l1 by omega)
    rw [occ_succ, if_pos h2] at this
    omega

theorem find_bucket (start : Nat → Nat) (n : Nat) (G : Nat) (h0 : start 0 ≤ n)
    (hG : n < start G) : ∃ k, k < G ∧ start k ≤ n ∧ n < start (k + 1) := by
  induction G with
  | zero => omega
  | succ G ih =>
    by_cases h : n < start G
    · obtain ⟨k, hk, h1, h2⟩ := ih h
      exact ⟨k, by omega, h1, h2⟩
    · exact ⟨G, by omega, by omega, hG⟩

theorem MappingSpec_unique {G L E : Nat} {dm em : List Int} (hv : ValidInput G L E dm em)
    {st st' : MapState} (hs : MappingSpec G L E dm em st) (hs' : MappingSpec G L E dm em st') :
    st = st' := by
  have ho : st.offsets = st'.offsets := by
    apply List.ext_getElem?
    intro n
    by_cases hn : n ≤ G
    · rw [hs.offsets_eq n hn, hs'.offsets_eq n hn]
    · rw [List.getElem?_eq_none (by rw [hs.offsets_length]; omega),
        List.getElem?_eq_none (by rw [hs'.offsets_length]; omega)]
  have hm : st.map = st'.map := by
    apply List.ext_getElem?
    intro n
    by_cases hn : n < L * E
    · rw [hs.map_eq n hn, hs'.map_eq n hn]
    · rw [List.getElem?_eq_none (by rw [hs.map_length]; omega),
        List.getElem?_eq_none (by rw [hs'.map_length]; omega)]
  have hi : st.indices = st'.indices := by
    apply List.ext_getElem?
    intro n
    by_cases hn : n < L * E
    · obtain ⟨k, hk, h1, h2⟩ := find_bucket (bucketStart L E em) n G
        (by rw [bucketStart_zero hv]; omega) (by rw [bucketStart_top hv]; exact hn)
      rw [bucketStart_succ hv k] at h2
      obtain ⟨r, hr⟩ : ∃ r, n = bucketStart L E em k + r := ⟨n - bucketStart L E em k, by omega⟩
      subst hr
      obtain ⟨l1, _, hf1, ho1, hg1⟩ := hs.indices_eq k r hk (by omega)
      obtain ⟨l2, _, hf2, ho2, hg2⟩ := hs'.indices_eq k r hk (by omega)
      rw [hg1, hg2, occ_inj _ _ l1 l2 hf1 hf2 (by rw [ho1, ho2])]
    · rw [List.getElem?_eq_none (by rw [hs.indices_length]; omega),
        List.getElem?_eq_none (by rw [hs'.indices_length]; omega)]
  cases st; cases st'
  simp only [MapState.mk.injEq]
  exact ⟨ho, hi, hm⟩

theorem buildMapping_uninit {G L E : Nat} {dm em : List Int} (hv : ValidInput G L E dm em)
    (u u' : Nat → Nat → Int) : buildMapping G L E dm em u = buildMapping G L E dm em u' := by
  obtain ⟨st, hst, hs⟩ := buildMapping_spec hv u
  obtain ⟨st', hst', hs'⟩ := buildMapping_spec hv u'
  rw [hst, hst', MappingSpec_unique hv hs hs']

/-- C6: on the two-element 1-D mesh with incidence table `[0,1,1,2]`
(3 global DOFs, identity reordering) the builder yields `offsets = [0,1,3,4]`,
`indices` holds local entries 1 and 2 (those of the shared DOF) at positions 1
and 2, and `LocalToGlobal` of the constant local vector `[1,1,1,1]` is `[1,2,1]`. -/
theorem two_element_mesh_scenario (uninit : Nat → Nat → Int) (glob0 : List Int)
    (hg0 : glob0.length = 3) :
    ∃ st, buildMapping 3 2 2 [] [0, 1, 1, 2] uninit = some st ∧
      st.offsets = [0, 1, 3, 4] ∧
      rd st.indices 1 = some 1 ∧ rd st.indices 2 = some 2 ∧
      bucket st 1 = [1, 2] ∧
      LocalToGlobal 3 st [1, 1, 1, 1] glob0 = some [1, 2, 1] := by
  have hv : ValidInput 3 2 2 [] [0, 1, 1, 2] :=
    (by decide)
  have hb : buildMapping 3 2 2 [] [0, 1, 1, 2] (fun _ _ => 0)
      = some ⟨[0, 1, 3, 4], [0, 1, 2, 3], [0, 1, 1, 2]⟩ := by decide
  refine ⟨⟨[0, 1, 3, 4], [0, 1, 2, 3], [0, 1, 1, 2]⟩, ?_, rfl, by decide, by decide, by decide, ?_⟩
  · rw [buildMapping_uninit hv uninit (fun _ _ => 0), hb]
  · match glob0, hg0 with
    | [a, b, c], _ => simp [LocalToGlobal, rLocalToGlobal, forallLoop, forLoop, rd, wr]

theorem two_element_mesh_scenario_witness :
    ([0, 0, 0] : List Int).length = 3 ∧
    ∃ st, buildMapping 3 2 2 [] [0, 1, 1, 2] (fun _ _ => 7) = some st ∧
      st.offsets = [0, 1, 3, 4] ∧
      rd st.indices 1 = some 1 ∧ rd st.indices 2 = some 2 ∧
      bucket st 1 = [1, 2] ∧
      LocalToGlobal 3 st [1, 1, 1, 1] [0, 0, 0] = some [1, 2, 1] :=
  ⟨rfl, two_element_mesh_scenario (fun _ _ => 7) [0, 0, 0] rfl⟩

theorem occ_eq_zero (f : Nat → Int) (m : Nat) (g : Int) (h : ∀ j, j < m → f j ≠ g) :
    occ f m g = 0 := by
  induction m with
  | zero => simp [occ]
  | succ m ih =>
    rw [occ_succ, ih (fun j hj => h j (Nat.lt_succ_of_lt hj)),
      if_neg (h m (Nat.lt_succ_self m))]

/-- C7 (as stated, refuted): the incidence table `[0]` with 2 global DOFs
references global DOF 1 nowhere, yet the builder does not fail: it returns the
mapping with `offsets = [0,1,1]`, whose bucket of DOF 1 is empty. -/
theorem unreferenced_dof_counterexample :
    (1 : Int) < 2 ∧ (∀ x ∈ ([0] : List Int), x ≠ 1) ∧
    buildMapping 2 1 1 [] [0] (fun _ _ => 0) ≠ none ∧
    buildMapping 2 1 1 [] [0] (fun _ _ => 0) = some ⟨[0, 1, 1], [0], [0]⟩ ∧
    rd [0, 1, 1] 1 = rd [0, 1, 1] (1 + 1) := by
  decide

/-- C7 (amended): for every valid builder input in which some global DOF
`g < globalDofs` is referenced by no incidence entry, the builder still returns a
mapping, and in it the bucket of `g` is empty: `offsets[g] = offsets[g+1]`. -/
theorem buildMapping_unreferenced_dof {G L E : Nat} {dm em : List Int}
    (hv : ValidInput G L E dm em) (uninit : Nat → Nat → Int) (g : Nat) (hg : g < G)
    (hun : ∀ x ∈ em, x ≠ (g : Int)) :
    ∃ st, buildMapping G L E dm em uninit = some st ∧
      (∃ a, rd st.offsets (g : Int) = some a ∧ rd st.offsets ((g : Int) + 1) = some a) ∧
      bucket st g = [] := by
  obtain ⟨st, hst, hs⟩ := buildMapping_spec hv uninit
  have hlen : em.length = L * E := by rw [hv.length_eq, Nat.mul_comm]
  have hz : occ (gidF L dm em) (L * E) g = 0 := by
    rw [occ_gidF hv E g]
    apply occ_eq_zero
    intro j hj
    have : emF em j = em[j] := by simp [emF, List.getD, hlen, hj]
    rw [this]
    exact hun _ (List.getElem_mem _)
  refine ⟨st, hst, ⟨((bucketStart L E em g : Nat) : Int), ?_, ?_⟩, ?_⟩
  · rw [rd_eq _ _ g rfl]; exact hs.offsets_eq g (by omega)
  · rw [rd_eq _ _ (g + 1) (by push_cast; ring), hs.offsets_eq (g + 1) (by omega),
      bucketStart_succ hv g, hz]
    rfl
  · rw [bucket_eq hv hs g hg, ← List.length_eq_zero, List.length_map, length_entriesOf, hz]

theorem buildMapping_unreferenced_dof_witness :
    ValidInput 2 1 1 [] [0] ∧ 1 < 2 ∧ (∀ x ∈ ([0] : List Int), x ≠ ((1 : Nat) : Int)) ∧
    ∃ st, buildMapping 2 1 1 [] [0] (fun _ _ => 0) = some st ∧
      (∃ a, rd st.offsets ((1 : Nat) : Int) = some a ∧
        rd st.offsets (((1 : Nat) : Int) + 1) = some a) ∧
      bucket st 1 = [] :=
  ⟨(by decide), by decide, by decide,
    buildMapping_unreferenced_dof (by decide) (fun _ _ => 0) 1
      (by decide) (by decide)⟩

theorem singleRows_succ (I : List Int) (n : Nat) :
    singleRows I (n + 1) = singleRows I n ++
      (if I.getD (n + 1) 0 - I.getD n 0 = 1 then [n] else []) := by
  simp only [singleRows, List.range_succ, List.filter_append, List.filter_cons,
    List.filter_nil, decide_eq_true_eq]

theorem singleRows_length_mono (I : List Int) {m n : Nat} (h : m ≤ n) :
    (singleRows I m).length ≤ (singleRows I n).length := by
  induction h with
  | refl => exact Nat.le_refl _
  | step _ ih => rw [singleRows_succ, List.length_append]; omega

theorem rd_getD (a : List Int) (i : Int) (n : Nat) (h : i = (n : Int)) (hn : n < a.length) :
    rd a i = some (a.getD n 0) := by
  rw [rd_eq a i n h]; simp [List.getD, hn]

theorem countTrueDofs_spec (mHeight : Nat) (I : List Int) (hI : I.length = mHeight + 1) :
    countTrueDofs mHeight I = some (((singleRows I mHeight).length : Nat) : Int) := by
  unfold countTrueDofs
  obtain ⟨tc, h1, h2⟩ := forLoop_inv
    (fun i trueCount =>
      (rd I ((i : Int) + 1)).bind fun a =>
      (rd I (i : Int)).bind fun b =>
      some (trueCount + (if a - b = 1 then 1 else 0)))
    (fun i (tc : Int) => tc = (((singleRows I i).length : Nat) : Int)) mHeight 0
    (by simp [singleRows])
    (by
      intro i tc hi htc
      refine ⟨tc + (if I.getD (i + 1) 0 - I.getD i 0 = 1 then 1 else 0), ?_, ?_⟩
      · dsimp only
        rw [rd_getD I _ (i + 1) (by push_cast; ring) (by omega), rd_getD I _ i rfl (by omega)]
        simp only [Option.some_bind]
      · dsimp only
        rw [singleRows_succ, List.length_append, htc]
        split_ifs <;> simp)
  rw [h1, h2]

theorem csr_row_bounds {mHeight : Nat} {I J : List Int} (hv : ValidCSR mHeight I J)
    (i : Nat) (hi : i < mHeight) :
    0 ≤ I.getD i 0 ∧ I.getD (i + 1) 0 ≤ (J.length : Int) := by
  have hl := hv.length_I
  have hm := List.pairwise_iff_getElem.mp hv.mono
  have g : ∀ n (h : n < I.length), I.getD n 0 = I[n] := fun n h => by simp [List.getD, h]
  have h0lt : 0 < I.length := by omega
  have hmlt : mHeight < I.length := by omega
  have h0 : I[0] = 0 := List.getElem_eq_iff.mpr hv.first
  have hJ : I[mHeight] = (J.length : Int) := List.getElem_eq_iff.mpr hv.length_J
  constructor
  · rw [g i (by omega)]
    rcases Nat.eq_zero_or_pos i with h | h
    · subst h; omega
    · have := hm 0 i (by omega) (by omega) h; omega
  · rw [g (i + 1) (by omega)]
    rcases Nat.lt_or_ge (i + 1) mHeight with h | h
    · have := hm (i + 1) mHeight (by omega) (by omega) h; omega
    · have h1 : i + 1 = mHeight := by omega
      subst h1; omega

theorem fillReorderIndices_spec {mHeight : Nat} {I J : List Int} (hv : ValidCSR mHeight I J)
    (buf : List Int) (hbuf : buf.length = 2 * (singleRows I mHeight).length) :
    ∃ s, fillReorderIndices mHeight I J buf = some s ∧
      FillInv I J (singleRows I mHeight).length mHeight s := by
  unfold fillReorderIndices
  apply forLoop_inv _ (fun i s => FillInv I J (singleRows I mHeight).length i s) mHeight (buf, 0)
  · exact ⟨hbuf, by simp [singleRows], by intro k row h; simp [singleRows] at h⟩
  · intro i s hi ⟨hlen, hcur, hent⟩
    have hl := hv.length_I
    obtain ⟨hlo, hhi⟩ := csr_row_bounds hv i hi
    rw [rd_getD I _ (i + 1) (by push_cast; ring) (by omega), rd_getD I _ i rfl (by omega)]
    simp only [Option.some_bind]
    by_cases hp : I.getD (i + 1) 0 - I.getD i 0 = 1
    · rw [if_pos hp]
      have hmono := singleRows_length_mono I (show i + 1 ≤ mHeight by omega)
      rw [singleRows_succ, if_pos hp, List.length_append] at hmono
      simp only [List.length_singleton] at hmono
      obtain ⟨p, hp'⟩ := Int.eq_ofNat_of_zero_le hlo
      have hpJ : p < J.length := by omega
      refine ⟨((s.1.set (2 * (singleRows I i).length) (J.getD p 0)).set
        (2 * (singleRows I i).length + 1) (i : Int),
        ((2 * (singleRows I (i + 1)).length : Nat) : Int)), ?_, ?_, rfl, ?_⟩
      · rw [hp', rd_getD J _ p rfl hpJ]
        simp only [Option.some_bind]
        rw [wr_eq s.1 _ (2 * (singleRows I i).length) _ hcur (by omega)]
        simp only [Option.some_bind]
        rw [wr_eq _ _ (2 * (singleRows I i).length + 1) _ (by rw [hcur]; push_cast; ring)
          (by simp; omega)]
        simp only [Option.some_bind]
        rw [hcur, singleRows_succ, if_pos hp, List.length_append]
        congr 2
      · simp [hlen]
      · intro k row hk
        rw [singleRows_succ, if_pos hp] at hk
        simp only [List.getElem?_set, List.length_set]
        by_cases hkc : k < (singleRows I i).length
        · rw [List.getElem?_append_left hkc] at hk
          obtain ⟨h1, h2⟩ := hent k row hk
          rw [if_neg (by omega), if_neg (by omega), if_neg (by omega), if_neg (by omega)]
          exact ⟨h1, h2⟩
        · have hk' := List.getElem?_eq_some.mp hk
          obtain ⟨hklt, hkv⟩ := hk'
          simp only [List.length_append, List.length_singleton] at hklt
          have hkeq : k = (singleRows I i).length := by omega
          subst hkeq
          rw [List.getElem?_append_right (Nat.le_refl _)] at hk
          simp at hk
          subst hk
          rw [if_neg (by omega), if_pos rfl, if_pos (by omega), if_pos rfl, if_pos (by omega), hp']
          exact ⟨by simp, rfl⟩
    · rw [if_neg hp]
      refine ⟨s, rfl, hlen, ?_, ?_⟩
      · rw [singleRows_succ, if_neg hp]; simpa using hcur
      · intro k row hk
        rw [singleRows_succ, if_neg hp, List.append_nil] at hk
        exact hent k row hk

theorem memcpy_full (dst src : List Int) (n : Nat) (hd : dst.length = n)
    (hs : src.length = n) : memcpy dst src n = some src := by
  unfold memcpy
  rw [if_pos ⟨by omega, by omega⟩, List.take_of_length_le (by omega),
    List.drop_of_length_le (by omega), List.append_nil]

theorem validCSR_example : ValidCSR 4 [0, 1, 1, 3, 4] [5, 6, 7, 8] := by decide

/-- C8: for every CSR restriction structure the direct-copy list built by the
constructor has `2*trueCount` entries, where `trueCount` is the number of rows
`i` with `I[i+1] - I[i] = 1`; it holds one pair for each such row and nothing
else, in increasing row order, and the pair of row `i` is `(J[I[i]], i)`. -/
theorem buildReorderIndices_pairs {mHeight : Nat} {I J : List Int}
    (hv : ValidCSR mHeight I J) (uninit : Nat → Nat → Int) :
    (∀ i, i ∈ singleRows I mHeight ↔ i < mHeight ∧
      ∃ a b, rd I ((i : Int) + 1) = some a ∧ rd I (i : Int) = some b ∧ a - b = 1) ∧
    (singleRows I mHeight).Pairwise (fun i j => i < j) ∧
    countTrueDofs mHeight I = some (((singleRows I mHeight).length : Nat) : Int) ∧
    ∃ out, buildReorderIndices mHeight I J uninit = some out ∧
      out.length = 2 * (singleRows I mHeight).length ∧
      ∀ (k row : Nat), (singleRows I mHeight)[k]? = some row →
        ∃ p col, rd I (row : Int) = some p ∧ rd J p = some col ∧
          out[2 * k]? = some col ∧ out[2 * k + 1]? = some (row : Int) := by
  have hl := hv.length_I
  have hmem : ∀ i, i ∈ singleRows I mHeight ↔ i < mHeight ∧
      ∃ a b, rd I ((i : Int) + 1) = some a ∧ rd I (i : Int) = some b ∧ a - b = 1 := by
    intro i
    simp only [singleRows, List.mem_filter, List.mem_range, decide_eq_true_eq]
    constructor
    · intro ⟨hi, hp⟩
      exact ⟨hi, _, _, rd_getD I _ (i + 1) (by push_cast; ring) (by omega),
        rd_getD I _ i rfl (by omega), hp⟩
    · intro ⟨hi, a, b, ha, hb, hab⟩
      rw [rd_getD I _ (i + 1) (by push_cast; ring) (by omega)] at ha
      rw [rd_getD I _ i rfl (by omega)] at hb
      simp only [Option.some.injEq] at ha hb
      rw [ha, hb]
      exact ⟨hi, hab⟩
  refine ⟨hmem, (List.pairwise_lt_range _).filter _, countTrueDofs_spec mHeight I hl, ?_⟩
  have hT : (2 * (((singleRows I mHeight).length : Nat) : Int)).toNat
      = 2 * (singleRows I mHeight).length := by omega
  obtain ⟨s, hs, hlen, _, hent⟩ := fillReorderIndices_spec hv
    (allocArray (2 * (singleRows I mHeight).length) (uninit 3)) (length_allocArray _ _)
  refine ⟨s.1, ?_, hlen, ?_⟩
  · simp only [buildReorderIndices, countTrueDofs_spec mHeight I hl, Option.some_bind, hT, hs]
    exact memcpy_full _ _ _ (length_allocArray _ _) hlen
  · intro k row hk
    have hrow : row ∈ singleRows I mHeight := List.getElem?_mem hk
    have hrow' := hrow
    rw [hmem] at hrow
    obtain ⟨hi, _⟩ := hrow
    simp only [singleRows, List.mem_filter, decide_eq_true_eq] at hrow'
    obtain ⟨hlo, hhi⟩ := csr_row_bounds hv row hi
    obtain ⟨p, hp⟩ := Int.eq_ofNat_of_zero_le hlo
    obtain ⟨h1, h2⟩ := hent k row hk
    refine ⟨I.getD row 0, J.getD p 0, rd_getD I _ row rfl (by omega), ?_, ?_, h2⟩
    · rw [hp]; exact rd_getD J _ p rfl (by omega)
    · rw [h1, hp]; simp

theorem buildReorderIndices_pairs_witness :
    ValidCSR 4 [0, 1, 1, 3, 4] [5, 6, 7, 8] ∧
    (∀ i, i ∈ singleRows [0, 1, 1, 3, 4] 4 ↔ i < 4 ∧
      ∃ a b, rd [0, 1, 1, 3, 4] ((i : Int) + 1) = some a ∧
        rd [0, 1, 1, 3, 4] (i : Int) = some b ∧ a - b = 1) ∧
    (singleRows [0, 1, 1, 3, 4] 4).Pairwise (fun i j => i < j) ∧
    countTrueDofs 4 [0, 1, 1, 3, 4]
      = some (((singleRows [0, 1, 1, 3, 4] 4).length : Nat) : Int) ∧
    ∃ out, buildReorderIndices 4 [0, 1, 1, 3, 4] [5, 6, 7, 8] (fun _ _ => 0) = some out ∧
      out.length = 2 * (singleRows [0, 1, 1, 3, 4] 4).length ∧
      ∀ (k row : Nat), (singleRows [0, 1, 1, 3, 4] 4)[k]? = some row →
        ∃ p col, rd [0, 1, 1, 3, 4] (row : Int) = some p ∧ rd [5, 6, 7, 8] p = some col ∧
          out[2 * k]? = some col ∧ out[2 * k + 1]? = some (row : Int) :=
  ⟨validCSR_example, buildReorderIndices_pairs validCSR_example (fun _ _ => 0)⟩

theorem fillIndicesAndMap_identity (E L : Nat) (em : List Int) (st0 : MapState) :
    fillIndicesAndMap E L true [] em st0
      = fillIndicesAndMap E L
          (((List.range L).map Int.ofNat).length == 0) ((List.range L).map Int.ofNat) em st0 := by
  unfold fillIndicesAndMap forallLoop
  apply forLoop_congr
  intro e st _
  apply forLoop_congr
  intro d st hd
  have h1 : ((((List.range L).map Int.ofNat).length == 0) = true) = False := by
    simp; omega
  have h2 : rd ((List.range L).map Int.ofNat) (d : Int) = some (d : Int) := by
    rw [rd_eq _ _ d rfl]; simp [hd]
  simp only [h1, h2, if_true, if_false]

/-- C9: for every valid builder input, building with an empty `dofMap` returns
exactly the same `offsets`, `indices` and `map` as building with the explicit
identity `dofMap = [0, 1, ..., localDofs-1]`. -/
theorem buildMapping_empty_eq_identity {G L E : Nat} {em : List Int}
    (hv : ValidInput G L E [] em) (uninit : Nat → Nat → Int) :
    ∃ st, buildMapping G L E [] em uninit = some st ∧
      buildMapping G L E ((List.range L).map Int.ofNat) em uninit = some st := by
  obtain ⟨st, hst, _⟩ := buildMapping_spec hv uninit
  refine ⟨st, hst, ?_⟩
  rw [← hst]
  simp only [buildMapping, ← fillIndicesAndMap_identity]
  rfl

theorem buildMapping_empty_eq_identity_witness :
    ValidInput 3 2 2 [] [0, 1, 1, 2] ∧
    ∃ st, buildMapping 3 2 2 [] [0, 1, 1, 2] (fun _ _ => 0) = some st ∧
      buildMapping 3 2 2 ((List.range 2).map Int.ofNat) [0, 1, 1, 2] (fun _ _ => 0) = some st :=
  ⟨(by decide),
    buildMapping_empty_eq_identity (by decide) (fun _ _ => 0)⟩

/-- C10: after `ResetQuadratureData()` the flag `quad_data_is_current` is false
whatever it was before, `quad_data` and every other member are unchanged, and a
second call leaves the same state as the first. -/
theorem resetQuadratureData_frame {F A D B T R Q M P : Type}
    (op : LagrangianHydroOperator F A D B T R Q M P) :
    op.ResetQuadratureData.quad_data_is_current = false ∧
    op.ResetQuadratureData.quad_data = op.quad_data ∧
    (op.ResetQuadratureData.H1FESpace = op.H1FESpace ∧
      op.ResetQuadratureData.L2FESpace = op.L2FESpace ∧
      op.ResetQuadratureData.H1compFESpace = op.H1compFESpace ∧
      op.ResetQuadratureData.ess_tdofs = op.ess_tdofs ∧
      op.ResetQuadratureData.dim = op.dim ∧
      op.ResetQuadratureData.zones_cnt = op.zones_cnt ∧
      op.ResetQuadratureData.l2dofs_cnt = op.l2dofs_cnt ∧
      op.ResetQuadratureData.h1dofs_cnt = op.h1dofs_cnt ∧
      op.ResetQuadratureData.source_type = op.source_type ∧
      op.ResetQuadratureData.cfl = op.cfl ∧
      op.ResetQuadratureData.gamma = op.gamma ∧
      op.ResetQuadratureData.use_viscosity = op.use_viscosity ∧
      op.ResetQuadratureData.p_assembly = op.p_assembly ∧
      op.ResetQuadratureData.Mv = op.Mv ∧
      op.ResetQuadratureData.Me_inv = op.Me_inv ∧
      op.ResetQuadratureData.integ_rule = op.integ_rule ∧
      op.ResetQuadratureData.Force = op.Force ∧
      op.ResetQuadratureData.ForcePA = op.ForcePA) ∧
    op.ResetQuadratureData.ResetQuadratureData = op.ResetQuadratureData :=
  ⟨rfl, rfl, ⟨rfl, rfl, rfl, rfl, rfl, rfl, rfl, rfl, rfl, rfl, rfl, rfl, rfl, rfl, rfl, rfl,
    rfl, rfl⟩, rfl⟩

theorem entriesOf_getElem?_inv (f : Nat → Int) (g : Int) (n k lid : Nat)
    (h : (entriesOf f n g)[k]? = some lid) : lid < n ∧ f lid = g ∧ occ f lid g = k := by
  induction n with
  | zero => simp [entriesOf] at h
  | succ n ih =>
    rw [entriesOf_succ] at h
    by_cases hk : k < (entriesOf f n g).length
    · rw [List.getElem?_append_left hk] at h
      obtain ⟨h1, h2, h3⟩ := ih h
      exact ⟨by omega, h2, h3⟩
    · rw [List.getElem?_append_right (by omega)] at h
      by_cases hf : f n = g
      · rw [if_pos hf] at h
        have hk0 : k - (entriesOf f n g).length = 0 := by
          rcases Nat.eq_zero_or_pos (k - (entriesOf f n g).length) with h0 | h0
          · exact h0
          · rw [List.getElem?_eq_none (by simp only [List.length_singleton]; omega)] at h; cases h
        rw [hk0] at h
        simp at h
        subst h
        refine ⟨by omega, hf, ?_⟩
        rw [← length_entriesOf]; omega
      · rw [if_neg hf] at h; simp at h

theorem gidF_range {G L E : Nat} {dm em : List Int} (hv : ValidInput G L E dm em)
    (lid : Nat) (hlid : lid < L * E) :
    0 ≤ gidF L dm em lid ∧ gidF L dm em lid < (G : Int) := by
  have hL : 0 < L := by
    rcases Nat.eq_zero_or_pos L with h | h
    · subst h; simp at hlid
    · exact h
  have he : lid / L < E := Nat.div_lt_of_lt_mul hlid
  obtain ⟨_, _, _, hg0, hgG⟩ := scatter_reads hv (lid / L) (lid % L) he (Nat.mod_lt _ hL)
  rw [Nat.div_add_mod] at hg0 hgG
  exact ⟨hg0, hgG⟩

theorem below_gidF {G L E : Nat} {dm em : List Int} (hv : ValidInput G L E dm em) (k : Nat) :
    below (gidF L dm em) (L * E) (k : Int) = below (emF em) (L * E) (k : Int) := by
  induction k with
  | zero =>
    have h1 := below_eq_zero (gidF L dm em) (L * E) 0 (fun j hj => (gidF_range hv j hj).1)
    have h2 := bucketStart_zero hv
    unfold bucketStart at h2
    simp only [Nat.cast_zero]
    rw [h1]
    exact h2.symm
  | succ k ih =>
    push_cast
    rw [below_add_one, below_add_one, ih, occ_gidF hv E k]

theorem countP_range_getD (l : List Int) (p : Int → Bool) :
    (List.range l.length).countP (fun j => p (l.getD j 0)) = l.countP p := by
  have h : (List.range l.length).map (fun j => l.getD j 0) = l := by
    apply List.ext_getElem
    · simp
    · intro i h1 h2
      simp at h1
      simp [List.getD, h1]
  have h2 := congrArg (List.countP p) h
  rw [List.countP_map] at h2
  exact h2

theorem below_emF_eq_countP (em : List Int) (k : Int) :
    below (emF em) em.length k = em.countP (fun x => decide (x < k)) :=
  countP_range_getD em (fun x => decide (x < k))

theorem occ_emF_eq_count (em : List Int) (g : Int) :
    occ (emF em) em.length g = em.count g := by
  have h := countP_range_getD em (fun x => x == g)
  rw [List.count_eq_countP, ← h]
  unfold occ emF
  apply List.countP_congr
  intro j _
  simp

/-- C12: for every valid builder input and every `k ≤ globalDofs`, the final
`offsets[k]` is the number of local entries whose global DOF id is smaller than
`k` (counted through `map`, and equally through the incidence table); hence the
width `offsets[g+1] - offsets[g]` of every bucket is the number of entries of
`elementMap` equal to `g`. -/
theorem buildMapping_offsets_counts {G L E : Nat} {dm em : List Int}
    (hv : ValidInput G L E dm em) (uninit : Nat → Nat → Int) :
    ∃ st, buildMapping G L E dm em uninit = some st ∧
      (∀ k : Nat, k ≤ G → ∃ a : Nat, rd st.offsets (k : Int) = some (a : Int) ∧
        a = (List.range (E * L)).countP (fun lid => decide (st.map.getD lid 0 < (k : Int))) ∧
        a = em.countP (fun x => decide (x < (k : Int)))) ∧
      (∀ g : Nat, g < G → ∃ a b : Int, rd st.offsets (g : Int) = some a ∧
        rd st.offsets ((g : Int) + 1) = some b ∧ b - a = ((em.count (g : Int) : Nat) : Int)) := by
  obtain ⟨st, hst, hs⟩ := buildMapping_spec hv uninit
  have hlen : em.length = L * E := by rw [hv.length_eq, Nat.mul_comm]
  refine ⟨st, hst, ?_, ?_⟩
  · intro k hk
    refine ⟨bucketStart L E em k, ?_, ?_, ?_⟩
    · rw [rd_eq _ _ k rfl]; exact hs.offsets_eq k hk
    · unfold bucketStart
      rw [← below_gidF hv k, Nat.mul_comm E L]
      unfold below
      apply List.countP_congr
      intro lid hlid
      rw [List.mem_range] at hlid
      simp [hs.map_eq lid hlid]
    · unfold bucketStart
      rw [← hlen]; exact below_emF_eq_countP em k
  · intro g hg
    refine ⟨((bucketStart L E em g : Nat) : Int), ((bucketStart L E em (g + 1) : Nat) : Int),
      ?_, ?_, ?_⟩
    · rw [rd_eq _ _ g rfl]; exact hs.offsets_eq g (by omega)
    · rw [rd_eq _ _ (g + 1) (by push_cast; ring)]; exact hs.offsets_eq (g + 1) hg
    · rw [bucketStart_succ hv g, occ_gidF hv E g, ← hlen, occ_emF_eq_count]
      push_cast; ring

theorem buildMapping_offsets_counts_witness :
    ValidInput 3 2 2 [1, 0] [0, 1, 1, 2] ∧
    ∃ st, buildMapping 3 2 2 [1, 0] [0, 1, 1, 2] (fun _ _ => 0) = some st ∧
      (∀ k : Nat, k ≤ 3 → ∃ a : Nat, rd st.offsets (k : Int) = some (a : Int) ∧
        a = (List.range (2 * 2)).countP (fun lid => decide (st.map.getD lid 0 < (k : Int))) ∧
        a = ([0, 1, 1, 2] : List Int).countP (fun x => decide (x < (k : Int)))) ∧
      (∀ g : Nat, g < 3 → ∃ a b : Int, rd st.offsets (g : Int) = some a ∧
        rd st.offsets ((g : Int) + 1) = some b ∧
        b - a = ((([0, 1, 1, 2] : List Int).count (g : Int) : Nat) : Int)) :=
  ⟨validInput_example, buildMapping_offsets_counts validInput_example (fun _ _ => 0)⟩

theorem fillIndicesAndMap_eq_scatterBody (E L : Nat) (isId : Bool) (dm em : List Int)
    (st0 : MapState) :
    fillIndicesAndMap E L isId dm em st0
      = forallLoop E (fun e st => forLoop (scatterBody L isId dm em e) L st) st0 := rfl

theorem scatterBody_step {G L E : Nat} {dm em : List Int} (hv : ValidInput G L E dm em)
    (e d : Nat) (he : e < E) (hd : d < L) (st : MapState)
    (hinv : ScatterInv G (L * E) (gidF L dm em) (bucketStart L E em) (L * e + d) st) :
    ∃ st', scatterBody L (dm.length == 0) dm em e d st = some st' ∧
      ScatterInv G (L * E) (gidF L dm em) (bucketStart L E em) (L * e + d + 1) st' := by
  obtain ⟨did, hdid, hrd, hg0, hgG⟩ := scatter_reads hv e d he hd
  obtain ⟨k, hk⟩ := Int.eq_ofNat_of_zero_le hg0
  have hkG : k < G := by omega
  have hlid : (L : Int) * (e : Int) + (d : Int) = ((L * e + d : Nat) : Int) := by
    push_cast; ring
  unfold scatterBody
  dsimp only
  rw [hdid]
  simp only [Option.some_bind]
  rw [hrd]
  simp only [Option.some_bind]
  rw [hlid]
  exact scatter_step G (L * E) (gidF L dm em) (bucketStart L E em)
    (fun k _ => bucketStart_succ hv k)
    (fun k k' h _ => bucketStart_mono L E em h)
    (by rw [bucketStart_top hv])
    (L * e + d) (lid_lt he hd) k hkG hk st hinv

theorem scatterStateAt_spec {G L E : Nat} {dm em : List Int}
    (hv : ValidInput G L E dm em) (st0 : MapState)
    (hol : st0.offsets.length = G + 1) (hil : st0.indices.length = L * E)
    (hml : st0.map.length = L * E)
    (hoff : ∀ k, k ≤ G → st0.offsets[k]? = some ((bucketStart L E em k : Nat) : Int))
    (e d : Nat) (he : e < E) (hd : d ≤ L) :
    ∃ st, scatterStateAt L (dm.length == 0) dm em st0 e d = some st ∧
      ScatterInv G (L * E) (gidF L dm em) (bucketStart L E em) (L * e + d) st := by
  unfold scatterStateAt
  rw [fillIndicesAndMap_eq_scatterBody]
  obtain ⟨st1, h1, hinv1⟩ := nested_inv
    (fun e d st => scatterBody L (dm.length == 0) dm em e d st)
    (fun m st => ScatterInv G (L * E) (gidF L dm em) (bucketStart L E em) m st) e L st0
    (by
      refine ⟨hol, hil, hml, ?_, ?_, ?_⟩
      · intro k hk; simpa [occ] using hoff k hk
      · intro k r _ hr; simp [occ] at hr
      · intro lid hlid; omega)
    (fun e' d' st he' hd' hinv => scatterBody_step hv e' d' (by omega) hd' st hinv)
  rw [h1]
  simp only [Option.some_bind]
  exact forLoop_inv (scatterBody L (dm.length == 0) dm em e)
    (fun d st => ScatterInv G (L * E) (gidF L dm em) (bucketStart L E em) (L * e + d) st)
    d st1 (by simpa using hinv1)
    (fun d' st hd' hinv => scatterBody_step hv e d' he (by omega) st hinv)

theorem buildMapping_trace {G L E : Nat} {dm em : List Int}
    (hv : ValidInput G L E dm em) (uninit : Nat → Nat → Int) :
    ∃ o1 o2 o3 st4 o5,
      offsetsFlush (G + 1) (allocArray (G + 1) (uninit 0)) = some o1 ∧
      offsetFill E L em o1 = some o2 ∧
      offsetsAggregate G 1 o2 = some o3 ∧
      fillIndicesAndMap E L (dm.length == 0) dm em
        ⟨o3, allocArray (L * E) (uninit 1), allocArray (L * E) (uninit 2)⟩ = some st4 ∧
      offsetsShift G st4.offsets = some o5 ∧
      buildMapping G L E dm em uninit = some ⟨o5, st4.indices, st4.map⟩ ∧
      o1.length = G + 1 ∧
      o3.length = G + 1 ∧
      (∀ k, k ≤ G → o3[k]? = some ((bucketStart L E em k : Nat) : Int)) ∧
      ScatterInv G (L * E) (gidF L dm em) (bucketStart L E em) (L * E) st4 ∧
      o5.length = G + 1 ∧
      (∀ k, k ≤ G → o5[k]? = some ((bucketStart L E em k : Nat) : Int)) := by
  have hlen : em.length = L * E := by rw [hv.length_eq, Nat.mul_comm]
  obtain ⟨o1, e1, l1, z1⟩ := offsetsFlush_spec (G + 1) (allocArray (G + 1) (uninit 0))
    (length_allocArray _ _)
  obtain ⟨o2, e2, l2, z2, c2⟩ := offsetFill_spec G L E em o1 hlen hv.in_range l1 z1
  obtain ⟨o3, e3, l3, c3⟩ := offsetsAggregate_spec G (L * E) (emF em) o2
    (below_zero_of_range em hv.in_range _ (by omega)) l2 z2 c2
  obtain ⟨st, e4, hinv⟩ := fillIndicesAndMap_spec hv
    ⟨o3, allocArray (L * E) (uninit 1), allocArray (L * E) (uninit 2)⟩
    l3 (length_allocArray _ _) (length_allocArray _ _) c3
  obtain ⟨o5, e5, l5, z5, c5⟩ := offsetsShift_spec G
    (fun k => ((bucketStart L E em k + occ (gidF L dm em) (L * E) k : Nat) : Int))
    st.offsets hinv.1 hinv.2.2.2.1
  refine ⟨o1, o2, o3, st, o5, e1, e2, e3, e4, e5, ?_, l1, l3, c3, hinv, l5, ?_⟩
  · simp only [buildMapping, e1, e2, e3, e4, e5, Option.some_bind]
  · intro k hk
    cases k with
    | zero => rw [z5, bucketStart_zero hv]; rfl
    | succ k => rw [c5 k (by omega), bucketStart_succ hv k]

/-- C13: for every valid builder input the scatter pass leaves `offsets[g]` equal
to the end of bucket `g`, which is the start `offsets[g+1]` the prefix-sum pass
had computed, for every global DOF `g`; the un-shift pass then returns exactly
the array the prefix-sum pass had produced, so `offsets[g]` is again the start
of bucket `g`. -/
theorem scatter_then_unshift_restores {G L E : Nat} {dm em : List Int}
    (hv : ValidInput G L E dm em) (uninit : Nat → Nat → Int) :
    ∃ o1 o2 o3 st4 o5,
      offsetsFlush (G + 1) (allocArray (G + 1) (uninit 0)) = some o1 ∧
      offsetFill E L em o1 = some o2 ∧
      offsetsAggregate G 1 o2 = some o3 ∧
      fillIndicesAndMap E L (dm.length == 0) dm em
        ⟨o3, allocArray (L * E) (uninit 1), allocArray (L * E) (uninit 2)⟩ = some st4 ∧
      offsetsShift G st4.offsets = some o5 ∧
      buildMapping G L E dm em uninit = some ⟨o5, st4.indices, st4.map⟩ ∧
      (∀ g : Nat, g < G → ∃ b, rd st4.offsets (g : Int) = some b ∧
        rd o3 ((g : Int) + 1) = some b) ∧
      o5 = o3 := by
  obtain ⟨o1, o2, o3, st4, o5, e1, e2, e3, e4, e5, hb, _, l3, c3, hinv, l5, c5⟩ :=
    buildMapping_trace hv uninit
  refine ⟨o1, o2, o3, st4, o5, e1, e2, e3, e4, e5, hb, ?_, ?_⟩
  · intro g hg
    refine ⟨((bucketStart L E em (g + 1) : Nat) : Int), ?_, ?_⟩
    · rw [rd_eq _ _ g rfl, hinv.2.2.2.1 g (by omega), bucketStart_succ hv g]
    · rw [rd_eq _ _ (g + 1) (by push_cast; ring)]; exact c3 (g + 1) hg
  · apply List.ext_getElem?
    intro n
    by_cases hn : n ≤ G
    · rw [c5 n hn, c3 n hn]
    · rw [List.getElem?_eq_none (by omega), List.getElem?_eq_none (by omega)]

theorem scatter_then_unshift_restores_witness :
    ValidInput 3 2 2 [1, 0] [0, 1, 1, 2] ∧
    ∃ o1 o2 o3 st4 o5,
      offsetsFlush (3 + 1) (allocArray (3 + 1) ((fun _ _ => 7 : Nat → Nat → Int) 0)) = some o1 ∧
      offsetFill 2 2 [0, 1, 1, 2] o1 = some o2 ∧
      offsetsAggregate 3 1 o2 = some o3 ∧
      fillIndicesAndMap 2 2 (([1, 0] : List Int).length == 0) [1, 0] [0, 1, 1, 2]
        ⟨o3, allocArray (2 * 2) ((fun _ _ => 7 : Nat → Nat → Int) 1),
          allocArray (2 * 2) ((fun _ _ => 7 : Nat → Nat → Int) 2)⟩ = some st4 ∧
      offsetsShift 3 st4.offsets = some o5 ∧
      buildMapping 3 2 2 [1, 0] [0, 1, 1, 2] (fun _ _ => 7) = some ⟨o5, st4.indices, st4.map⟩ ∧
      (∀ g : Nat, g < 3 → ∃ b, rd st4.offsets (g : Int) = some b ∧
        rd o3 ((g : Int) + 1) = some b) ∧
      o5 = o3 :=
  ⟨validInput_example, scatter_then_unshift_restores validInput_example (fun _ _ => 7)⟩

theorem scatterWritePos_eq {G L E : Nat} {dm em : List Int}
    (hv : ValidInput G L E dm em) (st0 : MapState)
    (hol : st0.offsets.length = G + 1) (hil : st0.indices.length = L * E)
    (hml : st0.map.length = L * E)
    (hoff : ∀ k, k ≤ G → st0.offsets[k]? = some ((bucketStart L E em k : Nat) : Int))
    (e d : Nat) (he : e < E) (hd : d < L) :
    ∃ k : Nat, k < G ∧ gidF L dm em (L * e + d) = (k : Int) ∧
      scatterWritePos L (dm.length == 0) dm em st0 e d = some ((k : Int),
        ((bucketStart L E em k + occ (gidF L dm em) (L * e + d) k : Nat) : Int)) := by
  obtain ⟨st, hst, hinv⟩ := scatterStateAt_spec hv st0 hol hil hml hoff e d he (by omega)
  obtain ⟨did, hdid, hrd, hg0, hgG⟩ := scatter_reads hv e d he hd
  obtain ⟨k, hk⟩ := Int.eq_ofNat_of_zero_le hg0
  refine ⟨k, by omega, hk, ?_⟩
  unfold scatterWritePos
  rw [hst]
  simp only [Option.some_bind]
  rw [hdid]
  simp only [Option.some_bind]
  rw [hrd]
  simp only [Option.some_bind]
  rw [hk, rd_eq _ _ k rfl, hinv.2.2.2.1 k (by omega)]
  simp only [Option.some_bind]

theorem lid_inj {L e d e' d' : Nat} (hd : d < L) (hd' : d' < L)
    (h : L * e + d = L * e' + d') : e = e' ∧ d = d' := by
  have hL : 0 < L := by omega
  have h1 : (L * e + d) / L = e := by
    rw [Nat.mul_add_div hL, Nat.div_eq_of_lt hd]; rfl
  have h2 : (L * e' + d') / L = e' := by
    rw [Nat.mul_add_div hL, Nat.div_eq_of_lt hd']; rfl
  have h3 : e = e' := by rw [← h1, ← h2, h]
  subst h3
  exact ⟨rfl, by omega⟩

theorem offsetsAggregate_base_zero (N : Nat) (hN : 0 < N) (offs : List Int) :
    offsetsAggregate N 0 offs = none := by
  unfold offsetsAggregate forallLoop
  simp only [forLoop, Option.some_bind]
  induction N with
  | zero => omega
  | succ n ih =>
    rcases Nat.eq_zero_or_pos n with h | h
    · subst h
      simp only [forLoop, Option.some_bind]
      have : rd offs (((0 : Nat) : Int) + (((0 : Nat) : Int) - 1)) = none := by
        simp [rd]
      rw [this]
      cases rd offs (((0 : Nat) : Int) + ((0 : Nat) : Int)) <;> rfl
    · simp only [forLoop]
      rw [ih h]
      rfl

theorem buildReorderIndices_spec {mHeight : Nat} {I J : List Int}
    (hv : ValidCSR mHeight I J) (uninit : Nat → Nat → Int) :
    ∃ out, buildReorderIndices mHeight I J uninit = some out ∧
      out.length = 2 * (singleRows I mHeight).length ∧
      ∀ (k row : Nat), (singleRows I mHeight)[k]? = some row →
        out[2 * k]? = some (J.getD (I.getD row 0).toNat 0) ∧
        out[2 * k + 1]? = some (row : Int) := by
  have hl := hv.length_I
  have hT : (2 * (((singleRows I mHeight).length : Nat) : Int)).toNat
      = 2 * (singleRows I mHeight).length := by omega
  obtain ⟨s, hs, hlen, _, hent⟩ := fillReorderIndices_spec hv
    (allocArray (2 * (singleRows I mHeight).length) (uninit 3)) (length_allocArray _ _)
  refine ⟨s.1, ?_, hlen, hent⟩
  simp only [buildReorderIndices, countTrueDofs_spec mHeight I hl, Option.some_bind, hT, hs]
  exact memcpy_full _ _ _ (length_allocArray _ _) hlen

/-- C14 (as stated, refuted): for the CSR structure `I = [0,1,1,3,4]`,
`J = [5,6,7,8]` the rows with one nonzero are 0 and 3 and the direct-copy list
is `[5,0,8,3]`: entry `2k` is the column `J[I[i]]`, not the row index, and entry
`2k+1` is the row index, not the column. -/
theorem direct_copy_order_counterexample :
    ValidCSR 4 [0, 1, 1, 3, 4] [5, 6, 7, 8] ∧
    singleRows [0, 1, 1, 3, 4] 4 = [0, 3] ∧
    buildReorderIndices 4 [0, 1, 1, 3, 4] [5, 6, 7, 8] (fun _ _ => 0) = some [5, 0, 8, 3] ∧
    rd [0, 1, 1, 3, 4] 0 = some 0 ∧ rd [5, 6, 7, 8] 0 = some 5 ∧
    rd [5, 0, 8, 3] (2 * 0) ≠ some 0 ∧ rd [5, 0, 8, 3] (2 * 0 + 1) ≠ some 5 := by
  decide

/-- C14 (amended): in the direct-copy list built by the constructor each pair is
recorded as (global DOF column, true-DOF row): for the `k`-th row `i` that has
exactly one nonzero, entry `2k` of the list is that row's column `J[I[i]]` and
entry `2k+1` is the row index `i`. -/
theorem direct_copy_pair_order {mHeight : Nat} {I J : List Int}
    (hv : ValidCSR mHeight I J) (uninit : Nat → Nat → Int) :
    ∃ out, buildReorderIndices mHeight I J uninit = some out ∧
      ∀ (k i : Nat), (singleRows I mHeight)[k]? = some i →
        ∃ p col, rd I (i : Int) = some p ∧ rd J p = some col ∧
          rd out (2 * (k : Int)) = some col ∧ rd out (2 * (k : Int) + 1) = some (i : Int) := by
  obtain ⟨out, hout, _, hent⟩ := buildReorderIndices_spec hv uninit
  refine ⟨out, hout, ?_⟩
  intro k i hk
  have hl := hv.length_I
  have hi : i ∈ singleRows I mHeight := List.getElem?_mem hk
  simp only [singleRows, List.mem_filter, List.mem_range, decide_eq_true_eq] at hi
  obtain ⟨hlo, hhi⟩ := csr_row_bounds hv i hi.1
  obtain ⟨p, hp⟩ := Int.eq_ofNat_of_zero_le hlo
  obtain ⟨h1, h2⟩ := hent k i hk
  refine ⟨I.getD i 0, J.getD p 0, rd_getD I _ i rfl (by omega), ?_, ?_, ?_⟩
  · rw [hp]; exact rd_getD J _ p rfl (by omega)
  · rw [rd_eq out _ (2 * k) (by push_cast; ring), h1, hp]; simp
  · rw [rd_eq out _ (2 * k + 1) (by push_cast; ring), h2]

theorem direct_copy_pair_order_witness :
    ValidCSR 4 [0, 1, 1, 3, 4] [5, 6, 7, 8] ∧
    ∃ out, buildReorderIndices 4 [0, 1, 1, 3, 4] [5, 6, 7, 8] (fun _ _ => 0) = some out ∧
      ∀ (k i : Nat), (singleRows [0, 1, 1, 3, 4] 4)[k]? = some i →
        ∃ p col, rd [0, 1, 1, 3, 4] (i : Int) = some p ∧ rd [5, 6, 7, 8] p = some col ∧
          rd out (2 * (k : Int)) = some col ∧ rd out (2 * (k : Int) + 1) = some (i : Int) :=
  ⟨validCSR_example, direct_copy_pair_order validCSR_example (fun _ _ => 0)⟩

theorem bucketStart_of_counts {G L E L' E' : Nat} {dm em dm' em' : List Int}
    (hv : ValidInput G L E dm em) (hv' : ValidInput G L' E' dm' em')
    (hc : ∀ g : Nat, g < G → em.count (g : Int) = em'.count (g : Int))
    (k : Nat) (hk : k ≤ G) : bucketStart L E em k = bucketStart L' E' em' k := by
  have hlen : em.length = L * E := by rw [hv.length_eq, Nat.mul_comm]
  have hlen' : em'.length = L' * E' := by rw [hv'.length_eq, Nat.mul_comm]
  induction k with
  | zero => rw [bucketStart_zero hv, bucketStart_zero hv']
  | succ k ih =>
    rw [bucketStart_succ hv k, bucketStart_succ hv' k, ih (by omega), occ_gidF hv E k,
      occ_gidF hv' E' k, ← hlen, ← hlen', occ_emF_eq_count, occ_emF_eq_count, hc k (by omega)]

theorem offsets_of_counts {G L E L' E' : Nat} {dm em dm' em' : List Int}
    (hv : ValidInput G L E dm em) (hv' : ValidInput G L' E' dm' em')
    (hc : ∀ g : Nat, g < G → em.count (g : Int) = em'.count (g : Int))
    {st st' : MapState} (hs : MappingSpec G L E dm em st)
    (hs' : MappingSpec G L' E' dm' em' st') : st'.offsets = st.offsets := by
  apply List.ext_getElem?
  intro n
  by_cases hn : n ≤ G
  · rw [hs.offsets_eq n hn, hs'.offsets_eq n hn, bucketStart_of_counts hv hv' hc n hn]
  · rw [List.getElem?_eq_none (by rw [hs'.offsets_length]; omega),
      List.getElem?_eq_none (by rw [hs.offsets_length]; omega)]

/-- C16: for every valid builder input, `offsets` depends only on how many times
each global DOF id occurs in `elementMap`: any other valid input with the same
`globalDofs` and the same per-id occurrence counts gives the same `offsets`, and
in particular every permutation `dofMap` gives the same `offsets` for the same
incidence table. -/
theorem offsets_depend_only_on_counts {G L E : Nat} {dm em : List Int}
    (hv : ValidInput G L E dm em) (uninit : Nat → Nat → Int) :
    ∃ st, buildMapping G L E dm em uninit = some st ∧
      (∀ (L' E' : Nat) (dm' em' : List Int) (uninit' : Nat → Nat → Int),
        ValidInput G L' E' dm' em' →
        (∀ g : Nat, g < G → em.count (g : Int) = em'.count (g : Int)) →
        ∃ st', buildMapping G L' E' dm' em' uninit' = some st' ∧ st'.offsets = st.offsets) ∧
      (∀ (dm' : List Int) (uninit' : Nat → Nat → Int), ValidInput G L E dm' em →
        ∃ st', buildMapping G L E dm' em uninit' = some st' ∧ st'.offsets = st.offsets) := by
  obtain ⟨st, hst, hs⟩ := buildMapping_spec hv uninit
  refine ⟨st, hst, ?_, ?_⟩
  · intro L' E' dm' em' uninit' hv' hc
    obtain ⟨st', hst', hs'⟩ := buildMapping_spec hv' uninit'
    exact ⟨st', hst', offsets_of_counts hv hv' hc hs hs'⟩
  · intro dm' uninit' hv'
    obtain ⟨st', hst', hs'⟩ := buildMapping_spec hv' uninit'
    exact ⟨st', hst', offsets_of_counts hv hv' (fun _ _ => rfl) hs hs'⟩

theorem offsets_depend_only_on_counts_witness :
    ValidInput 3 2 2 [1, 0] [0, 1, 1, 2] ∧
    ∃ st, buildMapping 3 2 2 [1, 0] [0, 1, 1, 2] (fun _ _ => 0) = some st ∧
      (∀ (L' E' : Nat) (dm' em' : List Int) (uninit' : Nat → Nat → Int),
        ValidInput 3 L' E' dm' em' →
        (∀ g : Nat, g < 3 →
          ([0, 1, 1, 2] : List Int).count (g : Int) = em'.count (g : Int)) →
        ∃ st', buildMapping 3 L' E' dm' em' uninit' = some st' ∧ st'.offsets = st.offsets) ∧
      (∀ (dm' : List Int) (uninit' : Nat → Nat → Int), ValidInput 3 2 2 dm' [0, 1, 1, 2] →
        ∃ st', buildMapping 3 2 2 dm' [0, 1, 1, 2] uninit' = some st' ∧
          st'.offsets = st.offsets) :=
  ⟨validInput_example, offsets_depend_only_on_counts validInput_example (fun _ _ => 0)⟩

theorem fillReorderIndices_prefix {mHeight : Nat} {I J : List Int}
    (hl : I.length = mHeight + 1)
    (hJ : ∀ i, i < mHeight → I.getD (i + 1) 0 - I.getD i 0 = 1 →
      0 ≤ I.getD i 0 ∧ I.getD i 0 < (J.length : Int))
    (buf : List Int) (hbuf : buf.length = 2 * (singleRows I mHeight).length)
    (n : Nat) (hn : n ≤ mHeight) :
    ∃ s, fillReorderIndices n I J buf = some s ∧
      FillInv I J (singleRows I mHeight).length n s := by
  unfold fillReorderIndices
  apply forLoop_inv _ (fun i s => FillInv I J (singleRows I mHeight).length i s) n (buf, 0)
  · exact ⟨hbuf, by simp [singleRows], by intro k row h; simp [singleRows] at h⟩
  · intro i s hi ⟨hlen, hcur, hent⟩
    have hi' : i < mHeight := by omega
    rw [rd_getD I _ (i + 1) (by push_cast; ring) (by omega), rd_getD I _ i rfl (by omega)]
    simp only [Option.some_bind]
    by_cases hp : I.getD (i + 1) 0 - I.getD i 0 = 1
    · rw [if_pos hp]
      obtain ⟨hlo, hhi⟩ := hJ i hi' hp
      have hmono := singleRows_length_mono I (show i + 1 ≤ mHeight by omega)
      rw [singleRows_succ, if_pos hp, List.length_append] at hmono
      simp only [List.length_singleton] at hmono
      obtain ⟨p, hp'⟩ := Int.eq_ofNat_of_zero_le hlo
      have hpJ : p < J.length := by omega
      refine ⟨((s.1.set (2 * (singleRows I i).length) (J.getD p 0)).set
        (2 * (singleRows I i).length + 1) (i : Int),
        ((2 * (singleRows I (i + 1)).length : Nat) : Int)), ?_, ?_, rfl, ?_⟩
      · rw [hp', rd_getD J _ p rfl hpJ]
        simp only [Option.some_bind]
        rw [wr_eq s.1 _ (2 * (singleRows I i).length) _ hcur (by omega)]
        simp only [Option.some_bind]
        rw [wr_eq _ _ (2 * (singleRows I i).length + 1) _ (by rw [hcur]; push_cast; ring)
          (by simp; omega)]
        simp only [Option.some_bind]
        rw [hcur, singleRows_succ, if_pos hp, List.length_append]
        congr 2
      · simp [hlen]
      · intro k row hk
        rw [singleRows_succ, if_pos hp] at hk
        simp only [List.getElem?_set, List.length_set]
        by_cases hkc : k < (singleRows I i).length
        · rw [List.getElem?_append_left hkc] at hk
          obtain ⟨h1, h2⟩ := hent k row hk
          rw [if_neg (by omega), if_neg (by omega), if_neg (by omega), if_neg (by omega)]
          exact ⟨h1, h2⟩
        · have hk' := List.getElem?_eq_some.mp hk
          obtain ⟨hklt, hkv⟩ := hk'
          simp only [List.length_append, List.length_singleton] at hklt
          have hkeq : k = (singleRows I i).length := by omega
          subst hkeq
          rw [List.getElem?_append_right (Nat.le_refl _)] at hk
          simp at hk
          subst hk
          rw [if_neg (by omega), if_pos rfl, if_pos (by omega), if_pos rfl, if_pos (by omega), hp']
          exact ⟨by simp, rfl⟩
    · rw [if_neg hp]
      refine ⟨s, rfl, hlen, ?_, ?_⟩
      · rw [singleRows_succ, if_neg hp]; simpa using hcur
      · intro k row hk
        rw [singleRows_succ, if_neg hp, List.append_nil] at hk
        exact hent k row hk

theorem singleRows_eq_entriesOf (I : List Int) (n : Nat) :
    singleRows I n = entriesOf (fun i => I.getD (i + 1) 0 - I.getD i 0) n 1 := rfl

theorem rd_some_bounds (a : List Int) (i v : Int) (h : rd a i = some v) :
    0 ≤ i ∧ i < (a.length : Int) := by
  unfold rd at h
  by_cases h0 : 0 ≤ i
  · rw [if_pos h0] at h
    obtain ⟨hlt, _⟩ := List.getElem?_eq_some.mp h
    exact ⟨h0, by omega⟩
  · rw [if_neg h0] at h; cases h

theorem reorderWritePos_eq {mHeight : Nat} {I J : List Int}
    (hl : I.length = mHeight + 1)
    (hJ : ∀ i, i < mHeight → I.getD (i + 1) 0 - I.getD i 0 = 1 →
      0 ≤ I.getD i 0 ∧ I.getD i 0 < (J.length : Int))
    (buf : List Int) (hbuf : buf.length = 2 * (singleRows I mHeight).length)
    (n w : Nat) (hn : n ≤ mHeight) :
    reorderWritePos I J buf n w
      = some (((2 * occ (fun i => I.getD (i + 1) 0 - I.getD i 0) n 1 + w : Nat)) : Int) := by
  obtain ⟨s, hs, _, hcur, _⟩ := fillReorderIndices_prefix hl hJ buf hbuf n hn
  unfold reorderWritePos
  rw [hs]
  simp only [Option.some_bind]
  rw [hcur, singleRows_eq_entriesOf, length_entriesOf]
  push_cast
  rfl

theorem scatterStateAt_zero (L : Nat) (isId : Bool) (dm em : List Int) (st0 : MapState)
    (e : Nat) :
    scatterStateAt L isId dm em st0 e 0 = fillIndicesAndMap e L isId dm em st0 := by
  unfold scatterStateAt
  cases fillIndicesAndMap e L isId dm em st0 <;> rfl

theorem scatterStateAt_full (L : Nat) (isId : Bool) (dm em : List Int) (st0 : MapState)
    (e : Nat) :
    scatterStateAt L isId dm em st0 e L = fillIndicesAndMap (e + 1) L isId dm em st0 := rfl

theorem scatterStateAt_succ (L : Nat) (isId : Bool) (dm em : List Int) (st0 : MapState)
    (e d : Nat) :
    scatterStateAt L isId dm em st0 e (d + 1)
      = (scatterStateAt L isId dm em st0 e d).bind (scatterBody L isId dm em e d) := by
  unfold scatterStateAt
  cases fillIndicesAndMap e L isId dm em st0 <;> rfl

theorem scatterBody_eq {G L E : Nat} {dm em : List Int} (hv : ValidInput G L E dm em)
    (e d : Nat) (he : e < E) (hd : d < L) (st : MapState)
    (hinv : ScatterInv G (L * E) (gidF L dm em) (bucketStart L E em) (L * e + d) st) :
    ∃ k : Nat, k < G ∧ gidF L dm em (L * e + d) = (k : Int) ∧
      bucketStart L E em k + occ (gidF L dm em) (L * e + d) k < st.indices.length ∧
      k < st.offsets.length ∧ L * e + d < st.map.length ∧
      scatterBody L (dm.length == 0) dm em e d st = some
        ⟨st.offsets.set k
            (((bucketStart L E em k + occ (gidF L dm em) (L * e + d) k : Nat) : Int) + 1),
          st.indices.set (bucketStart L E em k + occ (gidF L dm em) (L * e + d) k)
            ((L * e + d : Nat) : Int),
          st.map.set (L * e + d) (k : Int)⟩ := by
  obtain ⟨did, hdid, hrd, hg0, hgG⟩ := scatter_reads hv e d he hd
  obtain ⟨k, hk⟩ := Int.eq_ofNat_of_zero_le hg0
  have hkG : k < G := by omega
  obtain ⟨hol, hil, hml, hoff, _, _⟩ := hinv
  have hm : L * e + d < L * E := lid_lt he hd
  have hocc := occ_mono (gidF L dm em) (k : Int) (show L * e + d + 1 ≤ L * E from hm)
  rw [occ_succ, if_pos hk] at hocc
  have htop := bucketStart_mono L E em (show k + 1 ≤ G by omega)
  rw [bucketStart_top hv, bucketStart_succ hv k] at htop
  have hlid : (L : Int) * (e : Int) + (d : Int) = ((L * e + d : Nat) : Int) := by
    push_cast; ring
  refine ⟨k, hkG, hk, by omega, by omega, by omega, ?_⟩
  unfold scatterBody
  dsimp only
  rw [hdid]
  simp only [Option.some_bind]
  rw [hrd]
  simp only [Option.some_bind]
  rw [hlid, hk, rd_eq st.offsets _ k rfl, hoff k (by omega)]
  simp only [Option.some_bind]
  rw [wr_eq st.offsets _ k _ rfl (by omega)]
  simp only [Option.some_bind]
  rw [wr_eq st.indices _ (bucketStart L E em k + occ (gidF L dm em) (L * e + d) k) _ rfl
    (by omega)]
  simp only [Option.some_bind]
  rw [wr_eq st.map _ (L * e + d) _ rfl (by omega)]
  simp only [Option.some_bind]

/-- C15: for every valid builder input every array access of the five passes is
in bounds (each pass returns, and every read and write is checked).  The count
pass writes `offsets` at `gid+1 ≤ globalDofs` and leaves the per-id counts there;
the prefix-sum pass on `offsets+1` reads no index below 0.  In the scatter pass
the iteration for element `e` and node `d` turns the state `st` into `st'` by the
three writes `offsets[gid] = pos+1`, `indices[pos] = lid`, `map[lid] = gid`, where
`pos = offsets[gid]` lies in `[start of bucket gid, start of bucket gid+1)` and
below `elements*localDofs`; two different iterations never write the same
position of `indices`, and the finished `indices` still holds `lid` at `pos`. -/
theorem builder_accesses_in_bounds {G L E : Nat} {dm em : List Int}
    (hv : ValidInput G L E dm em) (uninit : Nat → Nat → Int) :
    ∃ o1 o2 o3 st0 st4 o5,
      offsetsFlush (G + 1) (allocArray (G + 1) (uninit 0)) = some o1 ∧
      offsetFill E L em o1 = some o2 ∧
      offsetsAggregate G 1 o2 = some o3 ∧
      st0 = ⟨o3, allocArray (L * E) (uninit 1), allocArray (L * E) (uninit 2)⟩ ∧
      fillIndicesAndMap E L (dm.length == 0) dm em st0 = some st4 ∧
      offsetsShift G st4.offsets = some o5 ∧
      buildMapping G L E dm em uninit = some ⟨o5, st4.indices, st4.map⟩ ∧
      (∀ e d : Nat, e < E → d < L → ∃ gid : Int,
        rd em ((L : Int) * (e : Int) + (d : Int)) = some gid ∧
        0 ≤ gid + 1 ∧ gid + 1 ≤ (G : Int) ∧ gid + 1 < (o1.length : Int)) ∧
      (rd o2 0 = some 0 ∧
        ∀ k : Nat, k < G → rd o2 ((k : Int) + 1) = some (((em.count (k : Int) : Nat)) : Int)) ∧
      (∀ i : Nat, i < G → 0 ≤ ((1 : Nat) : Int) + ((i : Int) - 1)) ∧
      (∀ e : Nat, e < E →
        scatterStateAt L (dm.length == 0) dm em st0 e 0
          = fillIndicesAndMap e L (dm.length == 0) dm em st0 ∧
        scatterStateAt L (dm.length == 0) dm em st0 e L
          = fillIndicesAndMap (e + 1) L (dm.length == 0) dm em st0) ∧
      (∀ e d : Nat, e < E → d < L → ∃ (st st' : MapState) (gid pos a b : Int),
        scatterStateAt L (dm.length == 0) dm em st0 e d = some st ∧
        scatterBody L (dm.length == 0) dm em e d st = some st' ∧
        scatterStateAt L (dm.length == 0) dm em st0 e (d + 1) = some st' ∧
        scatterWritePos L (dm.length == 0) dm em st0 e d = some (gid, pos) ∧
        wr st.offsets gid (pos + 1) = some st'.offsets ∧
        wr st.indices pos ((L : Int) * (e : Int) + (d : Int)) = some st'.indices ∧
        wr st.map ((L : Int) * (e : Int) + (d : Int)) gid = some st'.map ∧
        rd o3 gid = some a ∧ rd o3 (gid + 1) = some b ∧
        a ≤ pos ∧ pos < b ∧ pos < ((E * L : Nat) : Int) ∧
        rd st4.indices pos = some ((L : Int) * (e : Int) + (d : Int))) ∧
      (∀ e d e' d' : Nat, e < E → d < L → e' < E → d' < L →
        ∀ gid gid' pos : Int,
        scatterWritePos L (dm.length == 0) dm em st0 e d = some (gid, pos) →
        scatterWritePos L (dm.length == 0) dm em st0 e' d' = some (gid', pos) →
        e = e' ∧ d = d') := by
  obtain ⟨o1, o2, o3, st4, o5, e1, e2, e3, e4, e5, hb, l1, l3, c3, hinv4, _, _⟩ :=
    buildMapping_trace hv uninit
  have hlen : em.length = L * E := by rw [hv.length_eq, Nat.mul_comm]
  have hwp := scatterWritePos_eq hv
    ⟨o3, allocArray (L * E) (uninit 1), allocArray (L * E) (uninit 2)⟩ l3
    (length_allocArray _ _) (length_allocArray _ _) c3
  have hwidth : ∀ e d k, e < E → d < L → gidF L dm em (L * e + d) = (k : Int) →
      occ (gidF L dm em) (L * e + d) k < occ (gidF L dm em) (L * E) k := by
    intro e d k he hd hk
    have := occ_mono (gidF L dm em) (k : Int) (show L * e + d + 1 ≤ L * E from lid_lt he hd)
    rw [occ_succ, if_pos hk] at this
    omega
  refine ⟨o1, o2, o3, ⟨o3, allocArray (L * E) (uninit 1), allocArray (L * E) (uninit 2)⟩,
    st4, o5, e1, e2, e3, rfl, e4, e5, hb, ?_, ?_, ?_, ?_, ?_, ?_⟩
  · intro e d he hd
    have hj : L * e + d < em.length := by rw [hlen]; exact lid_lt he hd
    obtain ⟨h0, hG⟩ := emF_range em hv.in_range _ hj
    refine ⟨emF em (L * e + d), ?_, by omega, by omega, by omega⟩
    rw [rd_eq em _ (L * e + d) (by push_cast; ring)]
    exact emF_getElem? em _ hj
  · obtain ⟨o2', e2', _, z2, c2⟩ := offsetFill_spec G L E em o1 hlen hv.in_range l1
      (by
        obtain ⟨o1', e1', _, z1⟩ := offsetsFlush_spec (G + 1) (allocArray (G + 1) (uninit 0))
          (length_allocArray _ _)
        rw [e1] at e1'
        simp only [Option.some.injEq] at e1'
        subst e1'
        exact z1)
    rw [e2] at e2'
    simp only [Option.some.injEq] at e2'
    subst e2'
    refine ⟨by rw [rd_eq o2 (0 : Int) 0 rfl]; exact z2, ?_⟩
    intro k hk
    rw [rd_eq _ _ (k + 1) (by push_cast; ring), c2 k hk, ← hlen, occ_emF_eq_count]
  · intro i _
    omega
  · intro e _
    exact ⟨scatterStateAt_zero _ _ _ _ _ _, scatterStateAt_full _ _ _ _ _ _⟩
  · intro e d he hd
    obtain ⟨st, hst, hinv⟩ := scatterStateAt_spec hv
      ⟨o3, allocArray (L * E) (uninit 1), allocArray (L * E) (uninit 2)⟩ l3
      (length_allocArray _ _) (length_allocArray _ _) c3 e d he (by omega)
    obtain ⟨k, hkG, hk, hb1, hb2, hb3, hbody⟩ := scatterBody_eq hv e d he hd st hinv
    obtain ⟨k', _, hk', hw⟩ := hwp e d he hd
    have hkk : k' = k := by
      have := hk'.symm.trans hk
      exact_mod_cast this
    subst hkk
    have hlt := hwidth e d k' he hd hk
    have htop := bucketStart_mono L E em (show k' + 1 ≤ G by omega)
    rw [bucketStart_top hv, bucketStart_succ hv k'] at htop
    have hlid : (L : Int) * (e : Int) + (d : Int) = ((L * e + d : Nat) : Int) := by
      push_cast; ring
    refine ⟨st, _, (k' : Int), _, ((bucketStart L E em k' : Nat) : Int),
      ((bucketStart L E em (k' + 1) : Nat) : Int), hst, hbody, ?_, hw, ?_, ?_, ?_, ?_, ?_,
      ?_, ?_, ?_, ?_⟩
    · rw [scatterStateAt_succ, hst]; exact hbody
    · exact wr_eq _ _ k' _ rfl hb2
    · rw [hlid]; exact wr_eq _ _ _ _ rfl hb1
    · rw [hlid]; exact wr_eq _ _ (L * e + d) _ rfl hb3
    · rw [rd_eq _ _ k' rfl]; exact c3 k' (by omega)
    · rw [rd_eq _ _ (k' + 1) (by push_cast; ring)]; exact c3 (k' + 1) hkG
    · push_cast; omega
    · rw [bucketStart_succ hv k']; push_cast; omega
    · rw [Nat.mul_comm E L]; push_cast; omega
    · obtain ⟨lid, _, hfl, hol, hget⟩ := hinv4.2.2.2.2.1 k'
        (occ (gidF L dm em) (L * e + d) k') hkG hlt
      have : lid = L * e + d := occ_inj _ _ _ _ hfl hk hol
      subst this
      rw [rd_eq _ _ (bucketStart L E em k' + occ (gidF L dm em) (L * e + d) k') rfl, hget, hlid]
  · intro e d e' d' he hd he' hd' gid gid' pos h1 h2
    obtain ⟨k, hkG, hk, hw⟩ := hwp e d he hd
    obtain ⟨k', hkG', hk', hw'⟩ := hwp e' d' he' hd'
    rw [hw] at h1
    rw [hw'] at h2
    simp only [Option.some.injEq, Prod.mk.injEq] at h1 h2
    have hpos : bucketStart L E em k + occ (gidF L dm em) (L * e + d) k
        = bucketStart L E em k' + occ (gidF L dm em) (L * e' + d') k' := by
      have := h1.2.trans h2.2.symm
      exact_mod_cast this
    have hlt := hwidth e d k he hd hk
    have hlt' := hwidth e' d' k' he' hd' hk'
    have hkk : k = k' := by
      rcases Nat.lt_trichotomy k k' with h | h | h
      · have := bucketStart_mono L E em (show k + 1 ≤ k' by omega)
        rw [bucketStart_succ hv k] at this
        omega
      · exact h
      · have := bucketStart_mono L E em (show k' + 1 ≤ k by omega)
        rw [bucketStart_succ hv k'] at this
        omega
    subst hkk
    exact lid_inj hd hd' (occ_inj _ _ _ _ hk hk' (by omega))

theorem builder_accesses_in_bounds_witness :
    ValidInput 3 2 2 [1, 0] [0, 1, 1, 2] ∧
    ∃ o1 o2 o3 st0 st4 o5,
      offsetsFlush (3 + 1) (allocArray (3 + 1) ((fun _ _ => 7 : Nat → Nat → Int) 0)) = some o1 ∧
      offsetFill 2 2 ([0, 1, 1, 2] : List Int) o1 = some o2 ∧
      offsetsAggregate 3 1 o2 = some o3 ∧
      st0 = ⟨o3, allocArray (2 * 2) ((fun _ _ => 7 : Nat → Nat → Int) 1), allocArray (2 * 2) ((fun _ _ => 7 : Nat → Nat → Int) 2)⟩ ∧
      fillIndicesAndMap 2 2 (([1, 0] : List Int).length == 0) ([1, 0] : List Int) ([0, 1, 1, 2] : List Int) st0 = some st4 ∧
      offsetsShift 3 st4.offsets = some o5 ∧
      buildMapping 3 2 2 ([1, 0] : List Int) ([0, 1, 1, 2] : List Int) (fun _ _ => 7 : Nat → Nat → Int) = some ⟨o5, st4.indices, st4.map⟩ ∧
      (∀ e d : Nat, e < 2 → d < 2 → ∃ gid : Int,
        rd ([0, 1, 1, 2] : List Int) (((2 : Nat) : Int) * (e : Int) + (d : Int)) = some gid ∧
        0 ≤ gid + 1 ∧ gid + 1 ≤ ((3 : Nat) : Int) ∧ gid + 1 < (o1.length : Int)) ∧
      (rd o2 0 = some 0 ∧
        ∀ k : Nat, k < 3 → rd o2 ((k : Int) + 1) = some (((([0, 1, 1, 2] : List Int).count (k : Int) : Nat)) : Int)) ∧
      (∀ i : Nat, i < 3 → 0 ≤ ((1 : Nat) : Int) + ((i : Int) - 1)) ∧
      (∀ e : Nat, e < 2 →
        scatterStateAt 2 (([1, 0] : List Int).length == 0) ([1, 0] : List Int) ([0, 1, 1, 2] : List Int) st0 e 0
          = fillIndicesAndMap e 2 (([1, 0] : List Int).length == 0) ([1, 0] : List Int) ([0, 1, 1, 2] : List Int) st0 ∧
        scatterStateAt 2 (([1, 0] : List Int).length == 0) ([1, 0] : List Int) ([0, 1, 1, 2] : List Int) st0 e 2
          = fillIndicesAndMap (e + 1) 2 (([1, 0] : List Int).length == 0) ([1, 0] : List Int) ([0, 1, 1, 2] : List Int) st0) ∧
      (∀ e d : Nat, e < 2 → d < 2 → ∃ (st st' : MapState) (gid pos a b : Int),
        scatterStateAt 2 (([1, 0] : List Int).length == 0) ([1, 0] : List Int) ([0, 1, 1, 2] : List Int) st0 e d = some st ∧
        scatterBody 2 (([1, 0] : List Int).length == 0) ([1, 0] : List Int) ([0, 1, 1, 2] : List Int) e d st = some st' ∧
        scatterStateAt 2 (([1, 0] : List Int).length == 0) ([1, 0] : List Int) ([0, 1, 1, 2] : List Int) st0 e (d + 1) = some st' ∧
        scatterWritePos 2 (([1, 0] : List Int).length == 0) ([1, 0] : List Int) ([0, 1, 1, 2] : List Int) st0 e d = some (gid, pos) ∧
        wr st.offsets gid (pos + 1) = some st'.offsets ∧
        wr st.indices pos (((2 : Nat) : Int) * (e : Int) + (d : Int)) = some st'.indices ∧
        wr st.map (((2 : Nat) : Int) * (e : Int) + (d : Int)) gid = some st'.map ∧
        rd o3 gid = some a ∧ rd o3 (gid + 1) = some b ∧
        a ≤ pos ∧ pos < b ∧ pos < ((2 * 2 : Nat) : Int) ∧
        rd st4.indices pos = some (((2 : Nat) : Int) * (e : Int) + (d : Int))) ∧
      (∀ e d e' d' : Nat, e < 2 → d < 2 → e' < 2 → d' < 2 →
        ∀ gid gid' pos : Int,
        scatterWritePos 2 (([1, 0] : List Int).length == 0) ([1, 0] : List Int) ([0, 1, 1, 2] : List Int) st0 e d = some (gid, pos) →
        scatterWritePos 2 (([1, 0] : List Int).length == 0) ([1, 0] : List Int) ([0, 1, 1, 2] : List Int) st0 e' d' = some (gid', pos) →
        e = e' ∧ d = d') :=
  ⟨validInput_example, builder_accesses_in_bounds validInput_example (fun _ _ => 7)⟩

theorem csr_single_row_read {mHeight : Nat} {I J : List Int} (hv : ValidCSR mHeight I J)
    (i : Nat) (hi : i < mHeight) (hp : I.getD (i + 1) 0 - I.getD i 0 = 1) :
    0 ≤ I.getD i 0 ∧ I.getD i 0 < (J.length : Int) := by
  obtain ⟨h1, h2⟩ := csr_row_bounds hv i hi
  exact ⟨h1, by omega⟩

theorem fillReorderIndices_step {mHeight : Nat} {I J : List Int}
    (hl : I.length = mHeight + 1)
    (hJ : ∀ i, i < mHeight → I.getD (i + 1) 0 - I.getD i 0 = 1 →
      0 ≤ I.getD i 0 ∧ I.getD i 0 < (J.length : Int))
    (buf : List Int) (hbuf : buf.length = 2 * (singleRows I mHeight).length)
    (i : Nat) (hi : i < mHeight) :
    ∃ s, fillReorderIndices i I J buf = some s ∧
      s.1.length = 2 * (singleRows I mHeight).length ∧
      s.2 = ((2 * (singleRows I i).length : Nat) : Int) ∧
      (I.getD (i + 1) 0 - I.getD i 0 = 1 →
        2 * (singleRows I i).length + 1 < 2 * (singleRows I mHeight).length ∧
        fillReorderIndices (i + 1) I J buf = some
          ((s.1.set (2 * (singleRows I i).length) (J.getD (I.getD i 0).toNat 0)).set
            (2 * (singleRows I i).length + 1) (i : Int),
            ((2 * (singleRows I i).length : Nat) : Int) + 1 + 1)) ∧
      (¬ I.getD (i + 1) 0 - I.getD i 0 = 1 → fillReorderIndices (i + 1) I J buf = some s) := by
  obtain ⟨s, hs, hlen, hcur, _⟩ := fillReorderIndices_prefix hl hJ buf hbuf i (by omega)
  refine ⟨s, hs, hlen, hcur, ?_, ?_⟩
  · intro hp
    have hmono := singleRows_length_mono I (show i + 1 ≤ mHeight by omega)
    rw [singleRows_succ, if_pos hp, List.length_append] at hmono
    simp only [List.length_singleton] at hmono
    obtain ⟨hlo, hhi⟩ := hJ i hi hp
    obtain ⟨p, hp'⟩ := Int.eq_ofNat_of_zero_le hlo
    refine ⟨by omega, ?_⟩
    unfold fillReorderIndices at hs ⊢
    simp only [forLoop]
    rw [hs]
    simp only [Option.some_bind]
    rw [rd_getD I _ (i + 1) (by push_cast; ring) (by omega), rd_getD I _ i rfl (by omega)]
    simp only [Option.some_bind]
    rw [if_pos hp, hp', rd_getD J _ p rfl (by omega)]
    simp only [Option.some_bind]
    rw [wr_eq s.1 _ (2 * (singleRows I i).length) _ hcur (by omega)]
    simp only [Option.some_bind]
    rw [wr_eq _ _ (2 * (singleRows I i).length + 1) _ (by rw [hcur]; push_cast; ring)
      (by simp; omega)]
    simp only [Option.some_bind, Int.toNat_ofNat, hcur]
  · intro hp
    unfold fillReorderIndices at hs ⊢
    simp only [forLoop]
    rw [hs]
    simp only [Option.some_bind]
    rw [rd_getD I _ (i + 1) (by push_cast; ring) (by omega), rd_getD I _ i rfl (by omega)]
    simp only [Option.some_bind]
    rw [if_neg hp]

/-- C17: for every CSR structure with row pointers `I` of length `mHeight+1`, the
second scan runs on the buffer of size `2*trueCount`, where `trueCount` is the
count of the first scan.  Row by row: a row `i` with one nonzero turns the state
`s` into `s'` by the two writes `buffer[trueIdx] = J[I[i]]` and
`buffer[trueIdx+1] = i`, both below `2*trueCount`, and advances the cursor by 2;
any other row leaves the state as it is.  Every position below `2*trueCount` is
the target of exactly one of these writes, the scan ends with its cursor equal
to `2*trueCount`, and the finished buffer still holds at each position what that
write stored. -/
theorem second_scan_fills_buffer {mHeight : Nat} {I J : List Int}
    (hv : ValidCSR mHeight I J) (uninit : Nat → Nat → Int) :
    ∃ (trueCount : Nat) (buf : List Int),
      countTrueDofs mHeight I = some (trueCount : Int) ∧
      buf = allocArray (2 * (trueCount : Int)).toNat (uninit 3) ∧
      (∀ i : Nat, i < mHeight → ∃ s s' : List Int × Int,
        fillReorderIndices i I J buf = some s ∧
        fillReorderIndices (i + 1) I J buf = some s' ∧
        (i ∈ singleRows I mHeight → ∃ (p col : Int) (b1 : List Int),
          rd I (i : Int) = some p ∧ rd J p = some col ∧
          reorderWritePos I J buf i 0 = some s.2 ∧
          reorderWritePos I J buf i 1 = some (s.2 + 1) ∧
          wr s.1 s.2 col = some b1 ∧ wr b1 (s.2 + 1) (i : Int) = some s'.1 ∧
          s'.2 = s.2 + 1 + 1 ∧ 0 ≤ s.2 ∧ s.2 + 1 < 2 * (trueCount : Int)) ∧
        (i ∉ singleRows I mHeight → s' = s)) ∧
      (∀ i w : Nat, i ∈ singleRows I mHeight → w < 2 → ∃ p : Nat,
        reorderWritePos I J buf i w = some (p : Int) ∧ p < 2 * trueCount) ∧
      (∀ p : Nat, p < 2 * trueCount → ∃ i w : Nat, i ∈ singleRows I mHeight ∧ w < 2 ∧
        reorderWritePos I J buf i w = some (p : Int)) ∧
      (∀ (i w i' w' : Nat) (p : Int), i ∈ singleRows I mHeight → w < 2 →
        i' ∈ singleRows I mHeight → w' < 2 →
        reorderWritePos I J buf i w = some p →
        reorderWritePos I J buf i' w' = some p →
        i = i' ∧ w = w') ∧
      ∃ s, fillReorderIndices mHeight I J buf = some s ∧
        s.1.length = 2 * trueCount ∧ s.2 = 2 * (trueCount : Int) ∧
        ∀ i : Nat, i ∈ singleRows I mHeight → ∃ p col c : Int,
          rd I (i : Int) = some p ∧ rd J p = some col ∧
          reorderWritePos I J buf i 0 = some c ∧
          rd s.1 c = some col ∧ rd s.1 (c + 1) = some (i : Int) := by
  have hl := hv.length_I
  have hJ' : ∀ i, i < mHeight → I.getD (i + 1) 0 - I.getD i 0 = 1 →
      0 ≤ I.getD i 0 ∧ I.getD i 0 < (J.length : Int) := csr_single_row_read hv
  have hT : (2 * (((singleRows I mHeight).length : Nat) : Int)).toNat
      = 2 * (singleRows I mHeight).length := by omega
  have hbuf : (allocArray (2 * (singleRows I mHeight).length) (uninit 3)).length
      = 2 * (singleRows I mHeight).length := length_allocArray _ _
  have hpos := reorderWritePos_eq hl hJ'
    (allocArray (2 * (singleRows I mHeight).length) (uninit 3)) hbuf
  have hrow : ∀ i, i ∈ singleRows I mHeight ↔
      i < mHeight ∧ I.getD (i + 1) 0 - I.getD i 0 = 1 := by
    intro i
    simp only [singleRows, List.mem_filter, List.mem_range, decide_eq_true_eq]
  have hbelow : ∀ i, i ∈ singleRows I mHeight →
      occ (fun i => I.getD (i + 1) 0 - I.getD i 0) i 1 < (singleRows I mHeight).length := by
    intro i hi
    obtain ⟨h1, h2⟩ := (hrow i).mp hi
    have := occ_mono (fun i => I.getD (i + 1) 0 - I.getD i 0) 1 (show i + 1 ≤ mHeight by omega)
    rw [occ_succ, if_pos h2] at this
    rw [singleRows_eq_entriesOf, length_entriesOf]
    omega
  have hreads : ∀ i, i ∈ singleRows I mHeight →
      rd I (i : Int) = some (I.getD i 0) ∧
      rd J (I.getD i 0) = some (J.getD (I.getD i 0).toNat 0) := by
    intro i hi
    obtain ⟨h1, h2⟩ := (hrow i).mp hi
    obtain ⟨hlo, hhi⟩ := hJ' i h1 h2
    obtain ⟨q, hq⟩ := Int.eq_ofNat_of_zero_le hlo
    refine ⟨rd_getD I _ i rfl (by omega), ?_⟩
    rw [hq]
    exact rd_getD J _ q rfl (by omega)
  refine ⟨(singleRows I mHeight).length,
    allocArray (2 * (singleRows I mHeight).length) (uninit 3),
    countTrueDofs_spec mHeight I hl, by rw [hT], ?_, ?_, ?_, ?_, ?_⟩
  · intro i hi
    obtain ⟨s, hs, hlen, hcur, hsingle, hnot⟩ := fillReorderIndices_step hl hJ'
      (allocArray (2 * (singleRows I mHeight).length) (uninit 3)) hbuf i hi
    by_cases hp : I.getD (i + 1) 0 - I.getD i 0 = 1
    · obtain ⟨hlt, hstep⟩ := hsingle hp
      have hmem : i ∈ singleRows I mHeight := (hrow i).mpr ⟨hi, hp⟩
      obtain ⟨hr1, hr2⟩ := hreads i hmem
      refine ⟨s, _, hs, hstep, ?_, fun h => absurd hmem h⟩
      intro _
      refine ⟨I.getD i 0, J.getD (I.getD i 0).toNat 0,
        s.1.set (2 * (singleRows I i).length) (J.getD (I.getD i 0).toNat 0),
        hr1, hr2, ?_, ?_, ?_, ?_, ?_, ?_, ?_⟩
      · unfold reorderWritePos
        rw [hs]
        simp
      · unfold reorderWritePos
        rw [hs]
        simp
      · exact wr_eq s.1 _ (2 * (singleRows I i).length) _ hcur (by omega)
      · exact wr_eq _ _ (2 * (singleRows I i).length + 1) _ (by rw [hcur]; push_cast; ring)
          (by simp; omega)
      · show _ = s.2 + 1 + 1
        rw [hcur]
      · rw [hcur]; omega
      · rw [hcur]; push_cast; omega
    · have hmem : i ∉ singleRows I mHeight := fun h => hp ((hrow i).mp h).2
      exact ⟨s, s, hs, hnot hp, fun h => absurd h hmem, fun _ => rfl⟩
  · intro i w hi hw
    refine ⟨_, hpos i w ((hrow i).mp hi).1.le, ?_⟩
    have := hbelow i hi
    rw [singleRows_eq_entriesOf, length_entriesOf] at this ⊢
    omega
  · intro p hp
    obtain ⟨i, hi⟩ : ∃ i, (singleRows I mHeight)[p / 2]? = some i :=
      ⟨_, List.getElem?_eq_getElem (by omega)⟩
    have hmem : i ∈ singleRows I mHeight := List.getElem?_mem hi
    rw [singleRows_eq_entriesOf] at hi
    obtain ⟨h1, _, h3⟩ := entriesOf_getElem?_inv _ _ _ _ _ hi
    refine ⟨i, p % 2, hmem, Nat.mod_lt _ (by omega), ?_⟩
    rw [hpos i (p % 2) h1.le, h3]
    congr 2
    omega
  · intro i w i' w' p hi hw hi' hw' h1 h2
    rw [hpos i w ((hrow i).mp hi).1.le] at h1
    rw [hpos i' w' ((hrow i').mp hi').1.le] at h2
    simp only [Option.some.injEq] at h1 h2
    have heq : 2 * occ (fun i => I.getD (i + 1) 0 - I.getD i 0) i 1 + w
        = 2 * occ (fun i => I.getD (i + 1) 0 - I.getD i 0) i' 1 + w' := by
      have := h1.trans h2.symm
      exact_mod_cast this
    exact ⟨occ_inj (fun i => I.getD (i + 1) 0 - I.getD i 0) 1 i i' ((hrow i).mp hi).2
      ((hrow i').mp hi').2 (by omega), by omega⟩
  · obtain ⟨s, hs, hlen, hcur, hent⟩ := fillReorderIndices_prefix hl hJ'
      (allocArray (2 * (singleRows I mHeight).length) (uninit 3)) hbuf mHeight (Nat.le_refl _)
    refine ⟨s, hs, hlen, by rw [hcur]; push_cast; rfl, ?_⟩
    intro i hi
    obtain ⟨h1, h2⟩ := (hrow i).mp hi
    obtain ⟨hr1, hr2⟩ := hreads i hi
    have hk : (singleRows I mHeight)[occ (fun i => I.getD (i + 1) 0 - I.getD i 0) i 1]?
        = some i := by
      rw [singleRows_eq_entriesOf]
      exact entriesOf_getElem? _ _ _ _ h1 h2
    obtain ⟨hc0, hc1⟩ := hent _ _ hk
    refine ⟨I.getD i 0, J.getD (I.getD i 0).toNat 0,
      ((2 * occ (fun i => I.getD (i + 1) 0 - I.getD i 0) i 1 : Nat) : Int), hr1, hr2, ?_, ?_, ?_⟩
    · rw [hpos i 0 h1.le]; rfl
    · rw [rd_eq _ _ (2 * occ (fun i => I.getD (i + 1) 0 - I.getD i 0) i 1) rfl]; exact hc0
    · rw [rd_eq _ _ (2 * occ (fun i => I.getD (i + 1) 0 - I.getD i 0) i 1 + 1)
        (by push_cast; ring)]
      exact hc1

theorem second_scan_fills_buffer_witness :
    ValidCSR 4 [0, 1, 1, 3, 4] [5, 6, 7, 8] ∧
    ∃ (trueCount : Nat) (buf : List Int),
      countTrueDofs 4 ([0, 1, 1, 3, 4] : List Int) = some (trueCount : Int) ∧
      buf = allocArray (2 * (trueCount : Int)).toNat ((fun _ _ => -1 : Nat → Nat → Int) 3) ∧
      (∀ i : Nat, i < 4 → ∃ s s' : List Int × Int,
        fillReorderIndices i ([0, 1, 1, 3, 4] : List Int) ([5, 6, 7, 8] : List Int) buf = some s ∧
        fillReorderIndices (i + 1) ([0, 1, 1, 3, 4] : List Int) ([5, 6, 7, 8] : List Int) buf = some s' ∧
        (i ∈ singleRows ([0, 1, 1, 3, 4] : List Int) 4 → ∃ (p col : Int) (b1 : List Int),
          rd ([0, 1, 1, 3, 4] : List Int) (i : Int) = some p ∧ rd ([5, 6, 7, 8] : List Int) p = some col ∧
          reorderWritePos ([0, 1, 1, 3, 4] : List Int) ([5, 6, 7, 8] : List Int) buf i 0 = some s.2 ∧
          reorderWritePos ([0, 1, 1, 3, 4] : List Int) ([5, 6, 7, 8] : List Int) buf i 1 = some (s.2 + 1) ∧
          wr s.1 s.2 col = some b1 ∧ wr b1 (s.2 + 1) (i : Int) = some s'.1 ∧
          s'.2 = s.2 + 1 + 1 ∧ 0 ≤ s.2 ∧ s.2 + 1 < 2 * (trueCount : Int)) ∧
        (i ∉ singleRows ([0, 1, 1, 3, 4] : List Int) 4 → s' = s)) ∧
      (∀ i w : Nat, i ∈ singleRows ([0, 1, 1, 3, 4] : List Int) 4 → w < 2 → ∃ p : Nat,
        reorderWritePos ([0, 1, 1, 3, 4] : List Int) ([5, 6, 7, 8] : List Int) buf i w = some (p : Int) ∧ p < 2 * trueCount) ∧
      (∀ p : Nat, p < 2 * trueCount → ∃ i w : Nat, i ∈ singleRows ([0, 1, 1, 3, 4] : List Int) 4 ∧ w < 2 ∧
        reorderWritePos ([0, 1, 1, 3, 4] : List Int) ([5, 6, 7, 8] : List Int) buf i w = some (p : Int)) ∧
      (∀ (i w i' w' : Nat) (p : Int), i ∈ singleRows ([0, 1, 1, 3, 4] : List Int) 4 → w < 2 →
        i' ∈ singleRows ([0, 1, 1, 3, 4] : List Int) 4 → w' < 2 →
        reorderWritePos ([0, 1, 1, 3, 4] : List Int) ([5, 6, 7, 8] : List Int) buf i w = some p →
        reorderWritePos ([0, 1, 1, 3, 4] : List Int) ([5, 6, 7, 8] : List Int) buf i' w' = some p →
        i = i' ∧ w = w') ∧
      ∃ s, fillReorderIndices 4 ([0, 1, 1, 3, 4] : List Int) ([5, 6, 7, 8] : List Int) buf = some s ∧
        s.1.length = 2 * trueCount ∧ s.2 = 2 * (trueCount : Int) ∧
        ∀ i : Nat, i ∈ singleRows ([0, 1, 1, 3, 4] : List Int) 4 → ∃ p col c : Int,
          rd ([0, 1, 1, 3, 4] : List Int) (i : Int) = some p ∧ rd ([5, 6, 7, 8] : List Int) p = some col ∧
          reorderWritePos ([0, 1, 1, 3, 4] : List Int) ([5, 6, 7, 8] : List Int) buf i 0 = some c ∧
          rd s.1 c = some col ∧ rd s.1 (c + 1) = some (i : Int) :=
  ⟨validCSR_example, second_scan_fills_buffer validCSR_example (fun _ _ => -1)⟩

end Laghos
